import Mathlib

/-!
# Chess.com low-time alert: the content script's tracker, embedded in Lean

A shallow embedding of `src/content.js` (clock text parsing, the running
classifier, game-boundary resets, the alert decision) and of the message
lookup of `src/background.js`.

Conventions of the embedding.

* A JavaScript string is a Lean `String`, processed through its list of
  characters. Every character the code inspects (white space, `:`, `.`, the
  ASCII digits) lies in the Basic Multilingual Plane, so working on code
  points instead of UTF-16 code units changes nothing.
* A JavaScript number is an IEEE double (`JsNum`): a finite value, given by
  the rational it denotes, an infinity or NaN. The result of every
  multiplication, addition, subtraction and string conversion is rounded to
  the nearest double, ties to even, and overflows to `Infinity`
  (`JsNum.ofRat`); comparisons are exact. The zero has no sign. `parseInt` and
  `parseFloat` are taken to round the decimal they read correctly.
* `Date.now()` is an integer number of milliseconds (`ℤ`).
* The mutable global `STATE` is passed explicitly; side effects of an alert
  are returned as a list of `Effect`s.
* `findClockElements` reads the DOM: its result (the two clock elements, each
  possibly missing) is an input of `tick`.
* A lookup `dict[key]` on an object literal finds the literal's own keys and
  the properties every object inherits from `Object.prototype`.
-/

namespace ChessAlert

/-! ## JavaScript numbers -/

/-- A JavaScript number: a finite value, an infinity or NaN. -/
inductive JsNum where
  | fin (q : ℚ)
  | posInf
  | negInf
  | nan
  deriving DecidableEq

namespace JsNum

/-- Truthiness of a number: `0` and `NaN` are falsy. -/
def truthy : JsNum → Bool
  | fin q => decide (q ≠ 0)
  | posInf => true
  | negInf => true
  | nan => false

/-- The expression `a || b` on numbers. -/
def orElse (a b : JsNum) : JsNum := if a.truthy then a else b

/-- The test `Number.isFinite(a)`. -/
def isFinite : JsNum → Bool
  | fin _ => true
  | _ => false

/-- The comparison `x > t` for a finite `x`. -/
def finGt (x : ℚ) : JsNum → Bool
  | fin t => decide (t < x)
  | posInf => false
  | negInf => true
  | nan => false

/-- The comparison `x < t` for a finite `x`. -/
def finLt (x : ℚ) : JsNum → Bool
  | fin t => decide (x < t)
  | posInf => true
  | negInf => false
  | nan => false

/-- The comparison `v > d` for a finite `d`. -/
def gtFin (v : JsNum) (d : ℚ) : Bool :=
  match v with
  | fin q => decide (d < q)
  | posInf => true
  | negInf => false
  | nan => false

/-- Unary minus. -/
def neg : JsNum → JsNum
  | fin q => fin (-q)
  | posInf => negInf
  | negInf => posInf
  | nan => nan

/-- The integer part of the base-2 logarithm of `n`, computed by halving;
`fuel` bounds the number of halvings and `n` itself is always enough. -/
def log2Fuel : ℕ → ℕ → ℕ
  | 0, _ => 0
  | fuel + 1, n => if n < 2 then 0 else log2Fuel fuel (n / 2) + 1

/-- The binary exponent of the positive rational `n / d`: the integer `e`
with `2 ^ e ≤ n / d < 2 ^ (e + 1)`. -/
def binExponent (n d : ℕ) : ℤ :=
  let k : ℤ := (log2Fuel n n : ℤ) - (log2Fuel d d : ℤ)
  let ge : Bool :=
    if 0 ≤ k then decide (d * 2 ^ k.toNat ≤ n) else decide (d ≤ n * 2 ^ (-k).toNat)
  if ge then k else k - 1

/-- The exponent of the spacing of doubles around `n / d`: 52 below the
binary exponent, which is taken as -1022 in the subnormal range. -/
def quantumExp (n d : ℕ) : ℤ := max (binExponent n d) (-1022) - 52

/-- The integer nearest to `a / b`, ties to even. -/
def roundHalfEven (a b : ℕ) : ℕ :=
  let f := a / b
  let r := a % b
  if 2 * r < b then f else if b < 2 * r then f + 1 else if f % 2 = 0 then f else f + 1

/-- The rational `m * 2 ^ p`. -/
def scale2 (m : ℕ) (p : ℤ) : ℚ :=
  if 0 ≤ p then ((m * 2 ^ p.toNat : ℕ) : ℚ) else (m : ℚ) / ((2 ^ (-p).toNat : ℕ) : ℚ)

/-- The double nearest to the positive rational `n / d`, ties to even: the
value is rounded to a multiple of `2 ^ quantumExp n d`, and a result of
`2 ^ 1024` or more is `Infinity`. -/
def roundPos (n d : ℕ) : JsNum :=
  let p := quantumExp n d
  let m :=
    roundHalfEven (if 0 ≤ p then n else n * 2 ^ (-p).toNat) (if 0 ≤ p then d * 2 ^ p.toNat else d)
  if ((2 ^ 1024 : ℕ) : ℚ) ≤ scale2 m p then posInf else fin (scale2 m p)

/-- The Number value of a rational: the nearest double, or an infinity. -/
def ofRat (q : ℚ) : JsNum :=
  if q = 0 then fin 0
  else if 0 < q then roundPos q.num.toNat q.den
  else neg (roundPos (-q).num.toNat q.den)

/-- The expression `a + b`. -/
def add : JsNum → JsNum → JsNum
  | fin a, fin b => ofRat (a + b)
  | nan, _ => nan
  | _, nan => nan
  | posInf, negInf => nan
  | negInf, posInf => nan
  | posInf, _ => posInf
  | _, posInf => posInf
  | negInf, _ => negInf
  | _, negInf => negInf

/-- The expression `a * b` for finite `a` and `b`. -/
def finMul (a b : ℚ) : JsNum := ofRat (a * b)

/-- The expression `a - b` for finite `a` and `b`. -/
def finSub (a b : ℚ) : JsNum := ofRat (a - b)

/-- The test `x - m > d` for finite `x` and `d`. -/
def finSubGt (x : ℚ) (m : JsNum) (d : ℚ) : Bool :=
  match m with
  | fin t => gtFin (finSub x t) d
  | posInf => false
  | negInf => true
  | nan => false

/-- The expression `Number.isFinite(v) ? v : 0`. -/
def finiteOr0 : JsNum → ℚ
  | fin q => q
  | _ => 0

/-- The expression `Number.isFinite(v) ? v : null`. -/
def finiteOrNull : JsNum → Option ℚ
  | fin q => some q
  | _ => none

end JsNum

/-! ## String helpers -/

/-- White space and line terminators removed by `String.prototype.trim`. -/
def isJsWhiteSpace (c : Char) : Bool :=
  let n := c.toNat
  n == 0x09 || n == 0x0A || n == 0x0B || n == 0x0C || n == 0x0D || n == 0x20 ||
  n == 0xA0 || n == 0x1680 || (0x2000 ≤ n && n ≤ 0x200A) || n == 0x2028 ||
  n == 0x2029 || n == 0x202F || n == 0x205F || n == 0x3000 || n == 0xFEFF

/-- The characters of `s.trim()`. -/
def jsTrim (cs : List Char) : List Char :=
  ((cs.dropWhile isJsWhiteSpace).reverse.dropWhile isJsWhiteSpace).reverse

/-- The pieces of `s.split(":")`. -/
def splitColon : List Char → List (List Char)
  | [] => [[]]
  | c :: cs =>
    if c = ':' then [] :: splitColon cs
    else
      match splitColon cs with
      | [] => [[c]]
      | p :: ps => (c :: p) :: ps

/-- Value of a run of ASCII digits read in base ten. -/
def digitsValue (ds : List Char) : ℕ :=
  ds.foldl (fun acc c => acc * 10 + (c.toNat - 48)) 0

/-- The call `parseInt(v, 10)` on a string of ASCII digits: NaN on the empty
string, else the double nearest to the integer written. -/
def parseIntDigits (ds : List Char) : JsNum :=
  if ds.isEmpty then .nan else .ofRat (digitsValue ds)

/-- The call `parseFloat(v)` on a string made of ASCII digits and dots: the
double nearest to the longest prefix that is a decimal literal, NaN when
there is none. -/
def parseFloatClean (cs : List Char) : JsNum :=
  let ip := cs.takeWhile Char.isDigit
  match cs.dropWhile Char.isDigit with
  | '.' :: r =>
    let fp := r.takeWhile Char.isDigit
    if ip.isEmpty && fp.isEmpty then .nan
    else .ofRat ((digitsValue ip : ℚ) + (digitsValue fp : ℚ) / (10 : ℚ) ^ fp.length)
  | _ => if ip.isEmpty then .nan else .ofRat (digitsValue ip : ℚ)

/-! ## parseClockText (content.js 73-101) -/

/-- The inner helper `parseIntSafe`: strip everything but digits, parse,
and turn a result that is not finite into 0. -/
def parseIntSafe (v : List Char) : ℚ :=
  (parseIntDigits (v.filter Char.isDigit)).finiteOr0

/-- The inner helper `parseFloatSafe`: strip everything but digits and dots,
parse, and turn a result that is not finite into 0. -/
def parseFloatSafe (v : List Char) : ℚ :=
  (parseFloatClean (v.filter (fun c => c.isDigit || c == '.'))).finiteOr0

/-- Lines 79-99: the value of `seconds` computed from the fields. -/
def clockSeconds (parts : List (List Char)) : JsNum :=
  match parts with
  | [h, m, s] =>
    ((JsNum.finMul (parseIntSafe h) 3600).add (JsNum.finMul (parseIntSafe m) 60)).add
      (.fin (parseFloatSafe s))
  | [m, s] => (JsNum.finMul (parseIntSafe m) 60).add (.fin (parseFloatSafe s))
  | [s] => .fin (parseFloatSafe s)
  | _ => .fin 0

/-- The function `parseClockText`; `none` is `null`. -/
def parseClockText (text : Option String) : Option ℚ :=
  let raw := jsTrim (text.getD "").toList
  if raw.isEmpty then none
  else
    let parts := splitColon raw
    if parts.length = 0 then none
    else (clockSeconds parts).finiteOrNull

/-! ## Settings, tracker state, effects -/

/-- The object `settings.alertModes`; each flag is the truthiness of the
stored value. -/
structure AlertModes where
  voice : Bool
  notification : Bool
  banner : Bool
  sound : Bool
  deriving DecidableEq

/-- The settings object. `thresholdSeconds` is the value of
`Number(settings.thresholdSeconds)`; a missing `alertModes` or voice
parameter is `none`. -/
structure Settings where
  thresholdSeconds : JsNum
  language : String
  alertModes : Option AlertModes
  customMessage : String
  voiceRate : Option ℚ
  voicePitch : Option ℚ
  voiceVolume : Option ℚ
  deriving DecidableEq

/-- The constant `DEFAULT_SETTINGS` of background.js and options.js. -/
def DEFAULT_SETTINGS : Settings :=
  { thresholdSeconds := .fin 30
    language := "en"
    alertModes := some { voice := true, notification := true, banner := true, sound := false }
    customMessage := "Time is running low!"
    voiceRate := some 1
    voicePitch := some 1
    voiceVolume := some 1 }

/-- The global `STATE` of content.js (lines 3-11). -/
structure State where
  settings : Option Settings
  lastAlertAt : ℤ
  lastSeenSeconds : Option ℚ
  lastMySeconds : Option ℚ
  alertedOnce : Bool
  lastUrl : Option String
  minMySecondsSeen : JsNum
  deriving DecidableEq

/-- The initial value of `STATE`. -/
def STATE : State :=
  { settings := none
    lastAlertAt := 0
    lastSeenSeconds := none
    lastMySeconds := none
    alertedOnce := false
    lastUrl := none
    minMySecondsSeen := .posInf }

/-- The value of a message expression: a string, or the property of that
name inherited from `Object.prototype` (a function, or the prototype itself
for `__proto__`), which is not a string and is truthy. -/
inductive JsValue where
  | str (s : String)
  | inherited (name : String)
  deriving DecidableEq

/-- Side effects of an alert, in the order the code performs them. -/
inductive Effect where
  | sendMessage (type : String)
  | banner (text : JsValue)
  | beep (volume : ℚ)
  | speak (message : JsValue) (settings : Settings)
  deriving DecidableEq

/-- The message `{ type: "TRIGGER_ALERT" }` sent to the background. -/
def TRIGGER_ALERT : Effect := .sendMessage "TRIGGER_ALERT"

/-- A clock element as far as the code reads it: its text, its class list
and its `data-active` attribute. -/
structure ClockEl where
  textContent : Option String
  classList : List String
  dataActive : Option String
  deriving DecidableEq

/-! ## Message lookup (content.js 181-196, background.js 13-37) -/

/-- The names of the properties of `Object.prototype`. -/
def objectPrototypeKeys : List String :=
  ["constructor", "hasOwnProperty", "isPrototypeOf", "propertyIsEnumerable",
   "toLocaleString", "toString", "valueOf", "__proto__", "__defineGetter__",
   "__defineSetter__", "__lookupGetter__", "__lookupSetter__"]

/-- The lookup `dict[language]` in `getMessage` and `I18N_MESSAGES[language]`
in the background (the two literals are the same): an own key gives its
phrase, the name of a property of `Object.prototype` gives that property,
any other key gives `undefined`. -/
def I18N_MESSAGES (language : String) : Option JsValue :=
  if language = "en" then some (.str "Your time is low")
  else if language = "tr" then some (.str "Süren azaldı")
  else if language = "hu" then some (.str "Kevés az időd")
  else if language = "es" then some (.str "Te queda poco tiempo")
  else if language = "de" then some (.str "Deine Zeit wird knapp")
  else if language = "it" then some (.str "Il tuo tempo è basso")
  else if language = "pt" then some (.str "Seu tempo está acabando")
  else if language ∈ objectPrototypeKeys then some (.inherited language)
  else none

/-- The expression `a || b` where `a` is the result of a lookup and `b` a
string: the empty string and `undefined` are falsy. -/
def valueOr (a : Option JsValue) (b : String) : JsValue :=
  match a with
  | some (.str m) => if m = "" then .str b else .str m
  | some (.inherited name) => .inherited name
  | none => .str b

/-- The method `s.trim()`. -/
def trimString (s : String) : String := String.mk (jsTrim s.toList)

/-- The function `getMessage` of content.js. -/
def getMessage (settings : Settings) : JsValue :=
  let custom := if settings.customMessage = "" then "" else trimString settings.customMessage
  if custom = "" then valueOr (I18N_MESSAGES settings.language) "Your time is low"
  else .str custom

/-- The function `getMessageText` of background.js. -/
def getMessageText (settings : Settings) : JsValue :=
  if settings.customMessage ≠ "" ∧ 0 < (trimString settings.customMessage).length then
    .str settings.customMessage
  else valueOr (I18N_MESSAGES settings.language) "Your time is low"

/-! ## isMyClockRunning (content.js 103-119) -/

/-- The list `activeClassNames`. -/
def activeClassNames : List String :=
  ["clock-player-turn", "clock--active", "clock-running", "active"]

/-- The inner helper `isActive`. -/
def isActive (el : Option ClockEl) : Bool :=
  match el with
  | none => false
  | some e =>
    activeClassNames.any (fun c => e.classList.contains c) || decide (e.dataActive = some "true")

/-- The function `isMyClockRunning`. -/
def isMyClockRunning (myClockEl opponentClockEl : Option ClockEl) : Bool :=
  isActive myClockEl && !isActive opponentClockEl

/-! ## maybeAlert and resetForNewGame (content.js 198-221) -/

/-- The effects performed when the alert fires. -/
def alertEffects (st : Settings) : List Effect :=
  let message := getMessage st
  let modes : AlertModes :=
    st.alertModes.getD { voice := false, notification := false, banner := false, sound := false }
  [TRIGGER_ALERT]
    ++ (if modes.banner then [Effect.banner message] else [])
    ++ (if modes.sound then [Effect.beep (st.voiceVolume.getD 1)] else [])
    ++ (if modes.voice then [Effect.speak message st] else [])

/-- Line 202: `Number(STATE.settings.thresholdSeconds) || 30`. -/
def effectiveThreshold (st : Settings) : JsNum := st.thresholdSeconds.orElse (.fin 30)

/-- The function `maybeAlert`; `now` is the value of `Date.now()`. -/
def maybeAlert (s : State) (seconds : ℚ) (myRunning : Bool) (now : ℤ) : State × List Effect :=
  match s.settings with
  | none => (s, [])
  | some st =>
    if !myRunning then (s, [])
    else if s.alertedOnce then (s, [])
    else
      let threshold := effectiveThreshold st
      if JsNum.finGt seconds threshold then (s, [])
      else if now - s.lastAlertAt < 4000 then (s, [])
      else ({ s with lastAlertAt := now, alertedOnce := true }, alertEffects st)

/-- The function `resetForNewGame`. -/
def resetForNewGame (s : State) : State :=
  { s with
    alertedOnce := false
    minMySecondsSeen := .posInf
    lastMySeconds := none
    lastSeenSeconds := none }

/-! ## tick (content.js 223-255) -/

/-- What one call of `tick` reads from its environment. -/
structure TickInput where
  href : String
  my : Option ClockEl
  opp : Option ClockEl
  now : ℤ
  deriving DecidableEq

/-- Lines 225-230: the navigation check. The flag tells whether
`resetForNewGame` was called. -/
def urlStep (s : State) (href : String) : State × Bool :=
  let s1 := if s.lastUrl = none then { s with lastUrl := some href } else s
  if s1.lastUrl ≠ some href then (resetForNewGame { s1 with lastUrl := some href }, true)
  else (s1, false)

/-- Line 240: the running minimum. -/
def trackMin (s : State) (mySec : ℚ) : State :=
  if JsNum.finLt mySec s.minMySecondsSeen then { s with minMySecondsSeen := .fin mySec } else s

/-- Lines 241-244: the time-jump test, on the minimum already updated. -/
def isTimeJump (s : State) (mySec : ℚ) : Bool :=
  s.minMySecondsSeen.isFinite && JsNum.finSubGt mySec s.minMySecondsSeen 180

/-- Lines 245-246: the time-jump reset. -/
def timeJumpReset (s : State) (mySec : ℚ) : State :=
  { resetForNewGame s with minMySecondsSeen := .fin mySec }

/-- Lines 249-250: the derived signal `decreasing`. -/
def decreasing (s : State) (mySec : ℚ) : Bool :=
  match s.lastMySeconds with
  | some last => decide (mySec < last)
  | none => false

/-- The outcome of one tick: the new state and the effects, with a record of
what the tick did (the two reset flags, and the arguments of the call of
`maybeAlert` when the tick reached it). -/
structure TickResult where
  state : State
  effects : List Effect
  navReset : Bool
  jumpReset : Bool
  decision : Option (ℚ × Bool)
  deriving DecidableEq

/-- Lines 240-247 of `tick`: the state in which the alert decision is taken,
after the update of the running minimum and the time-jump reset. -/
def preDecision (s2 : State) (mySec : ℚ) : State :=
  let s3 := trackMin s2 mySec
  if isTimeJump s3 mySec then timeJumpReset s3 mySec else s3

/-- Lines 239-254 of `tick`, run once both readings have parsed: `s2` and
`nav` come from the navigation check, `classSaysRunning` is the value of
`isMyClockRunning(myClockEl, oppClockEl)`. -/
def tickBody (s2 : State) (nav : Bool) (classSaysRunning : Bool) (mySec : ℚ) (now : ℤ) :
    TickResult :=
  let s3 := trackMin s2 mySec
  let jump := isTimeJump s3 mySec
  let s4 := if jump then timeJumpReset s3 mySec else s3
  let myRunning := classSaysRunning || decreasing s4 mySec
  let r := maybeAlert s4 mySec myRunning now
  { state := { r.1 with lastSeenSeconds := some mySec, lastMySeconds := some mySec }
    effects := r.2
    navReset := nav
    jumpReset := jump
    decision := some (mySec, myRunning) }

/-- The outcome of a tick that returns early (lines 233 and 238). -/
def tickAborted (s2 : State) (nav : Bool) : TickResult :=
  { state := s2, effects := [], navReset := nav, jumpReset := false, decision := none }

/-- The function `tick`. -/
def tick (s : State) (inp : TickInput) : TickResult :=
  let u := urlStep s inp.href
  match inp.my, inp.opp with
  | some myClockEl, some oppClockEl =>
    let myText := myClockEl.textContent.getD ""
    let oppText := oppClockEl.textContent.getD ""
    match parseClockText (some myText), parseClockText (some oppText) with
    | some mySec, some _ =>
      tickBody u.1 u.2 (isMyClockRunning (some myClockEl) (some oppClockEl)) mySec inp.now
    | _, _ => tickAborted u.1 u.2
  | _, _ => tickAborted u.1 u.2

/-! ## Runs of the content script -/

/-- What can happen to `STATE` once `main` has started the timer: a tick, or
a `PAGE_ALERT` message carrying settings (lines 274-278). -/
inductive Event where
  | tick (inp : TickInput)
  | pageAlert (settings : Option Settings)
  deriving DecidableEq

/-- One event: new state, whether the alert fired, whether a reset ran. -/
def step (s : State) : Event → State × Bool × Bool
  | .tick inp =>
    let r := tick s inp
    (r.state, r.effects.contains TRIGGER_ALERT, r.navReset || r.jumpReset)
  | .pageAlert (some st) => ({ s with settings := some st }, false, false)
  | .pageAlert none => (s, false, false)

/-- The state after a list of events. -/
def runState (s : State) : List Event → State
  | [] => s
  | e :: es => runState (step s e).1 es

/-- The number of alerts fired along a list of events. -/
def fireCount (s : State) : List Event → ℕ
  | [] => 0
  | e :: es => (if (step s e).2.1 then 1 else 0) + fireCount (step s e).1 es

/-- The number of events along a list that ran `resetForNewGame`. -/
def resetCount (s : State) : List Event → ℕ
  | [] => 0
  | e :: es => (if (step s e).2.2 then 1 else 0) + resetCount (step s e).1 es

/-! ## Vocabulary of the specification -/

/-- The relation `x ≤ t` between a finite number and a JavaScript number. -/
def JsNum.finLe (x : ℚ) : JsNum → Bool
  | .fin t => decide (x ≤ t)
  | .posInf => true
  | .negInf => false
  | .nan => false

/-- Whether a list of effects contains the `TRIGGER_ALERT` message. -/
def firedAlert (effects : List Effect) : Bool := effects.contains TRIGGER_ALERT

/-- The reading a tick obtains from a clock element: `none` when the element
is missing or its text does not parse. -/
def clockReading (el : Option ClockEl) : Option ℚ :=
  match el with
  | none => none
  | some e => parseClockText (some (e.textContent.getD ""))

/-- A string is blank when it is empty or made of white space only. -/
def isBlank (s : String) : Bool := s.toList.all isJsWhiteSpace

/-- The text of a field given by its decimal digits, most significant first. -/
def digitChars (ds : List ℕ) : List Char := ds.map Nat.digitChar

/-- The number written by a list of decimal digits, most significant first. -/
def decimalValue (ds : List ℕ) : ℕ := Nat.ofDigits 10 ds.reverse

/-- The text of the last field: digits, then optionally a dot and the digits
of the fraction. -/
def lastField (s : List ℕ) (f : Option (List ℕ)) : List Char :=
  digitChars s ++
    match f with
    | none => []
    | some fd => '.' :: digitChars fd

/-- The number written by the last field. -/
def lastValue (s : List ℕ) (f : Option (List ℕ)) : ℚ :=
  (decimalValue s : ℚ) +
    match f with
    | none => 0
    | some fd => (decimalValue fd : ℚ) / (10 : ℚ) ^ fd.length

/-- A well-formed list of decimal digits. -/
def AllDigits (ds : List ℕ) : Prop := ∀ d ∈ ds, d < 10

/-- The number a field parser returns for a field that writes the rational
`v`: the double nearest to `v`, or 0 when `v` overflows. -/
def fieldNumber (v : ℚ) : ℚ := (JsNum.ofRat v).finiteOr0

/-- The value of `seconds` before the finiteness test of line 100, for a
text that is not null. -/
def computedSeconds (t : String) : JsNum := clockSeconds (splitColon (jsTrim t.toList))

/-! ## Example data -/

/-- A clock element showing `text`, marked active by the page or not. -/
def clockEl (text : String) (active : Bool) : ClockEl :=
  { textContent := some text
    classList := if active then ["clock", "clock-player-turn"] else ["clock"]
    dataActive := none }

/-- The URL of a first game. -/
def urlA : String := "https://www.chess.com/game/live/1"

/-- The URL of a second game. -/
def urlB : String := "https://www.chess.com/game/live/2"

/-- A tick input at `href`: the self clock shows `myText` and is marked
active or not, the opponent clock shows `5:00` and is not active. -/
def sample (href myText : String) (active : Bool) (now : ℤ) : TickInput :=
  { href := href
    my := some (clockEl myText active)
    opp := some (clockEl "5:00" false)
    now := now }

/-- The state in which `main` starts the timer on `urlA` with the default
settings loaded. -/
def startState : State :=
  { STATE with settings := some DEFAULT_SETTINGS, lastUrl := some urlA }

/-- A state in which the alert fired at time 100000 on `urlA`, the last
reading being 29 seconds. -/
def alertedState : State :=
  { settings := some DEFAULT_SETTINGS
    lastAlertAt := 100000
    lastSeenSeconds := some 29
    lastMySeconds := some 29
    alertedOnce := true
    lastUrl := some urlA
    minMySecondsSeen := .fin 29 }

/-- The start state with a configured threshold of 0. -/
def zeroThresholdState : State :=
  { startState with settings := some { DEFAULT_SETTINGS with thresholdSeconds := .fin 0 } }

/-- A tick on `urlB` in which the self clock element is not found. -/
def missingClockTick : TickInput :=
  { href := urlB, my := none, opp := some (clockEl "5:00" false), now := 100500 }

/-- A tick on `urlB` in which the self clock text is white space only. -/
def blankClockTick : TickInput :=
  { href := urlB, my := some (clockEl "  " true), opp := some (clockEl "5:00" false), now := 100500 }

/-- The built-in phrase the specification gives for a language code: the
entry of the code among en, tr, hu, es, de, it, pt, the English phrase for
any other code. -/
def builtinPhrase (language : String) : String :=
  match language with
  | "en" => "Your time is low"
  | "tr" => "Süren azaldı"
  | "hu" => "Kevés az időd"
  | "es" => "Te queda poco tiempo"
  | "de" => "Deine Zeit wird knapp"
  | "it" => "Il tuo tempo è basso"
  | "pt" => "Seu tempo está acabando"
  | _ => "Your time is low"

/-- The previous self reading as the alert decision of a tick sees it: the
stored `lastMySeconds`, or `null` when the tick has run `resetForNewGame`
before reaching the decision. -/
def previousReading (s : State) (r : TickResult) : Option ℚ :=
  if r.navReset || r.jumpReset then none else s.lastMySeconds

/-- The state in which a tick on `href` with the self reading `mySec` takes
the alert decision (line 252). -/
def decisionState (s : State) (href : String) (mySec : ℚ) : State :=
  preDecision (urlStep s href).1 mySec

/-- The derived signal of the running classifier: the previous self reading
is non-null and the current reading is strictly below it. -/
def derivedSignal (previous : Option ℚ) (mySec : ℚ) : Bool :=
  match previous with
  | some p => decide (mySec < p)
  | none => false

/-- The start state after a first tick that read 31 seconds while the page
marked no clock as active. -/
def descendingState : State :=
  { startState with
    lastSeenSeconds := some 31, lastMySeconds := some 31, minMySecondsSeen := .fin 31 }

/-- A clock text that overflows: `1` followed by 307 zeros, then `:00:00`. -/
def overflowText : String := String.mk ('1' :: (List.replicate 307 '0' ++ ":00:00".toList))

/-- A field of 400 nines. -/
def ninesText : String := String.mk (List.replicate 400 '9')

/-- Scenarios A and B of the specification: readings 40, 35, 31, 29 and then
15 seconds on `urlA`, the self clock marked active, one tick every 500 ms. -/
def scenarioAB : List Event :=
  [ .tick (sample urlA "0:40" true 100000),
    .tick (sample urlA "0:35" true 100500),
    .tick (sample urlA "0:31" true 101000),
    .tick (sample urlA "0:29" true 101500),
    .tick (sample urlA "0:15" true 102000) ]

/-- Scenario D of the specification: a reading of 10 seconds, then 205
seconds on the same URL, then a descent to 25 seconds. -/
def scenarioD : List Event :=
  [ .tick (sample urlA "0:10" true 100000),
    .tick (sample urlA "3:25" true 100500),
    .tick (sample urlA "0:25" true 110000) ]


/-! ## Lemmas on strings and parsing -/

theorem dropWhile_eq_self_of_none {p : Char → Bool} :
    ∀ l : List Char, (∀ c ∈ l, p c = false) → l.dropWhile p = l
  | [], _ => rfl
  | c :: cs, h => by
    have hc : p c = false := h c (List.mem_cons_self _ _)
    simp [List.dropWhile, hc]

theorem takeWhile_eq_nil_of_none {p : Char → Bool} :
    ∀ l : List Char, (∀ c ∈ l, p c = false) → l.takeWhile p = []
  | [], _ => rfl
  | c :: cs, h => by
    have hc : p c = false := h c (List.mem_cons_self _ _)
    simp [List.takeWhile, hc]

theorem jsTrim_eq_self (l : List Char) (h : ∀ c ∈ l, isJsWhiteSpace c = false) :
    jsTrim l = l := by
  unfold jsTrim
  rw [dropWhile_eq_self_of_none l h,
    dropWhile_eq_self_of_none l.reverse (fun c hc => h c (List.mem_reverse.mp hc)),
    List.reverse_reverse]

theorem jsTrim_eq_nil_iff (l : List Char) :
    jsTrim l = [] ↔ ∀ c ∈ l, isJsWhiteSpace c = true := by
  unfold jsTrim
  rw [List.reverse_eq_nil_iff, List.dropWhile_eq_nil_iff]
  constructor
  · intro h
    have hnil : l.dropWhile isJsWhiteSpace = [] := by
      by_contra hne
      have hhead := List.head_dropWhile_not isJsWhiteSpace l hne
      have hmem : (l.dropWhile isJsWhiteSpace).head hne ∈ (l.dropWhile isJsWhiteSpace).reverse :=
        List.mem_reverse.mpr (List.head_mem hne)
      rw [h _ hmem] at hhead
      exact absurd hhead (by simp)
    exact List.dropWhile_eq_nil_iff.mp hnil
  · intro h
    rw [List.dropWhile_eq_nil_iff.mpr h]
    intro x hx
    simp at hx

theorem jsTrim_subset (l : List Char) : ∀ c ∈ jsTrim l, c ∈ l := by
  intro c hc
  unfold jsTrim at hc
  have h1 := (List.dropWhile_sublist isJsWhiteSpace).subset (List.mem_reverse.mp hc)
  exact (List.dropWhile_sublist isJsWhiteSpace).subset (List.mem_reverse.mp h1)

theorem splitColon_ne_nil : ∀ l : List Char, splitColon l ≠ []
  | [] => by simp [splitColon]
  | c :: cs => by
    unfold splitColon
    split
    · simp
    · split <;> simp

theorem splitColon_no_colon : ∀ l : List Char, (∀ c ∈ l, c ≠ ':') → splitColon l = [l]
  | [], _ => rfl
  | c :: cs, h => by
    have hc : c ≠ ':' := h c (List.mem_cons_self _ _)
    have ih := splitColon_no_colon cs (fun d hd => h d (List.mem_cons_of_mem _ hd))
    simp [splitColon, hc, ih]

theorem splitColon_append_colon :
    ∀ (a rest : List Char), (∀ c ∈ a, c ≠ ':') →
      splitColon (a ++ ':' :: rest) = a :: splitColon rest
  | [], rest, _ => by simp [splitColon]
  | c :: cs, rest, h => by
    have hc : c ≠ ':' := h c (List.mem_cons_self _ _)
    have ih := splitColon_append_colon cs rest (fun d hd => h d (List.mem_cons_of_mem _ hd))
    simp [splitColon, hc, ih]

theorem splitColon_mem : ∀ (l : List Char), ∀ p ∈ splitColon l, ∀ c ∈ p, c ∈ l
  | [], p, hp, c, hc => by
    simp [splitColon] at hp
    subst hp
    simp at hc
  | d :: ds, p, hp, c, hc => by
    unfold splitColon at hp
    split at hp
    · rcases List.mem_cons.mp hp with h | h
      · subst h
        simp at hc
      · exact List.mem_cons_of_mem _ (splitColon_mem ds p h c hc)
    · split at hp
      · rename_i heq
        exact absurd heq (splitColon_ne_nil ds)
      · rename_i q qs heq
        have ih := splitColon_mem ds
        rw [heq] at ih
        rcases List.mem_cons.mp hp with h | h
        · subst h
          rcases List.mem_cons.mp hc with h2 | h2
          · subst h2
            exact List.mem_cons_self _ _
          · exact List.mem_cons_of_mem _ (ih q (List.mem_cons_self _ _) c h2)
        · exact List.mem_cons_of_mem _ (ih p (List.mem_cons_of_mem _ h) c hc)

theorem digitChar_facts :
    ∀ d : ℕ, d < 10 →
      (Nat.digitChar d).isDigit = true ∧ Nat.digitChar d ≠ ':' ∧ Nat.digitChar d ≠ '.' ∧
        isJsWhiteSpace (Nat.digitChar d) = false ∧ (Nat.digitChar d).toNat - 48 = d := by
  decide

theorem digitChars_isDigit (ds : List ℕ) (h : AllDigits ds) :
    ∀ c ∈ digitChars ds, c.isDigit = true := by
  intro c hc
  obtain ⟨d, hd, rfl⟩ := List.mem_map.mp hc
  exact (digitChar_facts d (h d hd)).1

theorem isDigit_not_special (c : Char) (h : c.isDigit = true) :
    c ≠ ':' ∧ c ≠ '.' ∧ isJsWhiteSpace c = false := by
  have h1 : 48 ≤ c.toNat ∧ c.toNat ≤ 57 := by
    simpa [Char.isDigit, Char.toNat, UInt32.le_def, Nat.le_antisymm_iff] using h
  refine ⟨?_, ?_, ?_⟩
  · rintro rfl
    exact absurd h1.2 (by decide)
  · rintro rfl
    exact absurd h1.1 (by decide)
  · simp only [isJsWhiteSpace, Bool.or_eq_false_iff, beq_eq_false_iff_ne, Bool.and_eq_false_iff,
      decide_eq_false_iff_not]
    omega

theorem digitsValue_foldl (ds : List ℕ) (h : AllDigits ds) (acc : ℕ) :
    (digitChars ds).foldl (fun a c => a * 10 + (c.toNat - 48)) acc
      = acc * 10 ^ ds.length + decimalValue ds := by
  induction ds generalizing acc with
  | nil => simp [digitChars, decimalValue]
  | cons d ds ih =>
    have hd := (digitChar_facts d (h d (List.mem_cons_self _ _))).2.2.2.2
    have hds : AllDigits ds := fun x hx => h x (List.mem_cons_of_mem _ hx)
    have ih2 := ih hds (acc * 10 + d)
    simp only [digitChars, List.map_cons, List.foldl_cons, hd] at ih2 ⊢
    rw [ih2]
    simp only [decimalValue, List.reverse_cons, Nat.ofDigits_append, Nat.ofDigits_singleton,
      List.length_reverse, List.length_cons]
    ring

theorem digitsValue_digitChars (ds : List ℕ) (h : AllDigits ds) :
    digitsValue (digitChars ds) = decimalValue ds := by
  have := digitsValue_foldl ds h 0
  simpa [digitsValue] using this

theorem filter_eq_self_of_all {p : Char → Bool} (l : List Char) (h : ∀ c ∈ l, p c = true) :
    l.filter p = l :=
  List.filter_eq_self.mpr h

theorem ofRat_zero : JsNum.ofRat 0 = .fin 0 := by
  simp [JsNum.ofRat]

theorem fieldNumber_zero : fieldNumber 0 = 0 := by
  simp [fieldNumber, ofRat_zero, JsNum.finiteOr0]

theorem parseIntSafe_digitChars (ds : List ℕ) (h : AllDigits ds) :
    parseIntSafe (digitChars ds) = fieldNumber (decimalValue ds) := by
  unfold parseIntSafe parseIntDigits
  rw [filter_eq_self_of_all _ (digitChars_isDigit ds h)]
  cases ds with
  | nil => simp [digitChars, decimalValue, fieldNumber_zero, JsNum.finiteOr0]
  | cons d ds =>
    have hv := digitsValue_digitChars _ h
    simp only [digitChars, List.map_cons] at hv
    simp [digitChars, hv, fieldNumber]

theorem lastField_filter (sd : List ℕ) (f : Option (List ℕ)) (hs : AllDigits sd)
    (hf : ∀ fd, f = some fd → AllDigits fd) :
    (lastField sd f).filter (fun c => c.isDigit || c == '.') = lastField sd f := by
  apply filter_eq_self_of_all
  intro c hc
  unfold lastField at hc
  rcases List.mem_append.mp hc with h | h
  · simp [digitChars_isDigit sd hs c h]
  · cases f with
    | none => simp at h
    | some fd =>
      rcases List.mem_cons.mp h with h2 | h2
      · simp [h2]
      · simp [digitChars_isDigit fd (hf fd rfl) c h2]

theorem takeWhile_digits_append (a rest : List Char) (ha : ∀ c ∈ a, c.isDigit = true)
    (hr : ∀ c, rest.head? = some c → c.isDigit = false) :
    (a ++ rest).takeWhile Char.isDigit = a ∧ (a ++ rest).dropWhile Char.isDigit = rest := by
  induction a with
  | nil =>
    cases rest with
    | nil => simp
    | cons r rs =>
      have := hr r rfl
      simp [List.takeWhile, List.dropWhile, this]
  | cons c cs ih =>
    have hc := ha c (List.mem_cons_self _ _)
    have ih2 := ih (fun d hd => ha d (List.mem_cons_of_mem _ hd))
    simp [List.takeWhile, List.dropWhile, hc, ih2]

theorem parseFloatSafe_lastField (sd : List ℕ) (f : Option (List ℕ)) (hs : AllDigits sd)
    (hf : ∀ fd, f = some fd → AllDigits fd) :
    parseFloatSafe (lastField sd f) = fieldNumber (lastValue sd f) := by
  unfold parseFloatSafe
  rw [lastField_filter sd f hs hf]
  cases f with
  | none =>
    have h := takeWhile_digits_append (digitChars sd) [] (digitChars_isDigit sd hs) (by simp)
    simp only [List.append_nil] at h
    simp only [lastField, lastValue, List.append_nil, parseFloatClean, h.1, h.2]
    cases sd with
    | nil => simp [digitChars, decimalValue, fieldNumber_zero, JsNum.finiteOr0]
    | cons d ds =>
      have hv := digitsValue_digitChars _ hs
      simp only [digitChars, List.map_cons] at hv
      simp [digitChars, hv, fieldNumber]
  | some fd =>
    have hfd := hf fd rfl
    have h := takeWhile_digits_append (digitChars sd) ('.' :: digitChars fd)
      (digitChars_isDigit sd hs) (by simp)
    have h2 := takeWhile_digits_append (digitChars fd) [] (digitChars_isDigit fd hfd) (by simp)
    simp only [List.append_nil] at h2
    simp only [lastField, lastValue, parseFloatClean, h.1, h.2, h2.1]
    by_cases hnil : ((digitChars sd).isEmpty && (digitChars fd).isEmpty) = true
    · have hsd : sd = [] := by
        cases sd with
        | nil => rfl
        | cons d ds => simp [digitChars] at hnil
      have hfd0 : fd = [] := by
        cases fd with
        | nil => rfl
        | cons d ds => simp [digitChars] at hnil
      subst hsd hfd0
      simp [digitChars, decimalValue, fieldNumber_zero, JsNum.finiteOr0]
    · simp only [hnil, if_false, Bool.false_eq_true,
        digitsValue_digitChars sd hs, digitsValue_digitChars fd hfd]
      simp [digitChars, fieldNumber]

theorem text_no_whitespace (l : List Char)
    (h : ∀ c ∈ l, c.isDigit = true ∨ c = ':' ∨ c = '.') :
    jsTrim l = l := by
  apply jsTrim_eq_self
  intro c hc
  rcases h c hc with h1 | h1 | h1
  · exact (isDigit_not_special c h1).2.2
  · subst h1; decide
  · subst h1; decide

theorem lastField_chars (sd : List ℕ) (f : Option (List ℕ)) (hs : AllDigits sd)
    (hf : ∀ fd, f = some fd → AllDigits fd) :
    ∀ c ∈ lastField sd f, c.isDigit = true ∨ c = '.' := by
  intro c hc
  unfold lastField at hc
  rcases List.mem_append.mp hc with h | h
  · exact Or.inl (digitChars_isDigit sd hs c h)
  · cases f with
    | none => simp at h
    | some fd =>
      rcases List.mem_cons.mp h with h2 | h2
      · exact Or.inr h2
      · exact Or.inl (digitChars_isDigit fd (hf fd rfl) c h2)

theorem lastField_no_colon (sd : List ℕ) (f : Option (List ℕ)) (hs : AllDigits sd)
    (hf : ∀ fd, f = some fd → AllDigits fd) :
    ∀ c ∈ lastField sd f, c ≠ ':' := by
  intro c hc
  rcases lastField_chars sd f hs hf c hc with h | h
  · exact (isDigit_not_special c h).1
  · subst h; decide

theorem digitChars_no_colon (ds : List ℕ) (h : AllDigits ds) :
    ∀ c ∈ digitChars ds, c ≠ ':' :=
  fun c hc => (isDigit_not_special c (digitChars_isDigit ds h c hc)).1

theorem parseClockText_of_parts (l : List Char) (hl : jsTrim l = l) (hne : l ≠ []) :
    parseClockText (some (String.mk l)) = (clockSeconds (splitColon l)).finiteOrNull := by
  have hlen : (splitColon l).length ≠ 0 := by
    simpa using splitColon_ne_nil l
  have ht : (String.mk l).toList = l := rfl
  simp only [parseClockText, Option.getD_some, ht, hl, List.isEmpty_iff, hne, if_false, hlen]

theorem wellFormed_chars (h m s : List ℕ) (f : Option (List ℕ))
    (hh : AllDigits h) (hm : AllDigits m) (hs : AllDigits s)
    (hf : ∀ fd, f = some fd → AllDigits fd) :
    (∀ c ∈ lastField s f, c.isDigit = true ∨ c = ':' ∨ c = '.') ∧
    (∀ c ∈ digitChars m ++ ':' :: lastField s f, c.isDigit = true ∨ c = ':' ∨ c = '.') ∧
    (∀ c ∈ digitChars h ++ ':' :: (digitChars m ++ ':' :: lastField s f),
      c.isDigit = true ∨ c = ':' ∨ c = '.') := by
  have hlast := lastField_chars s f hs hf
  have h1 : ∀ c ∈ lastField s f, c.isDigit = true ∨ c = ':' ∨ c = '.' := by
    intro c hc
    rcases hlast c hc with h1 | h1
    · exact Or.inl h1
    · exact Or.inr (Or.inr h1)
  have h2 : ∀ c ∈ digitChars m ++ ':' :: lastField s f,
      c.isDigit = true ∨ c = ':' ∨ c = '.' := by
    intro c hc
    rcases List.mem_append.mp hc with h3 | h3
    · exact Or.inl (digitChars_isDigit m hm c h3)
    · rcases List.mem_cons.mp h3 with h4 | h4
      · exact Or.inr (Or.inl h4)
      · exact h1 c h4
  refine ⟨h1, h2, ?_⟩
  intro c hc
  rcases List.mem_append.mp hc with h3 | h3
  · exact Or.inl (digitChars_isDigit h hh c h3)
  · rcases List.mem_cons.mp h3 with h4 | h4
    · exact Or.inr (Or.inl h4)
    · exact h2 c h4

theorem parse_wellFormed (h m s : List ℕ) (f : Option (List ℕ))
    (hh : AllDigits h) (hm : AllDigits m) (hs : AllDigits s)
    (hf : ∀ fd, f = some fd → AllDigits fd) (hne : s ≠ []) :
    parseClockText (some (String.mk (lastField s f)))
      = some (fieldNumber (lastValue s f)) ∧
    parseClockText (some (String.mk (digitChars m ++ ':' :: lastField s f)))
      = ((JsNum.finMul (fieldNumber (decimalValue m)) 60).add
          (.fin (fieldNumber (lastValue s f)))).finiteOrNull ∧
    parseClockText (some (String.mk (digitChars h ++ ':' :: (digitChars m ++ ':' :: lastField s f))))
      = (((JsNum.finMul (fieldNumber (decimalValue h)) 3600).add
          (JsNum.finMul (fieldNumber (decimalValue m)) 60)).add
          (.fin (fieldNumber (lastValue s f)))).finiteOrNull := by
  have hlastne : lastField s f ≠ [] := by
    cases s with
    | nil => exact absurd rfl hne
    | cons d ds => simp [lastField, digitChars]
  have hcl := lastField_no_colon s f hs hf
  have hch := wellFormed_chars h m s f hh hm hs hf
  refine ⟨?_, ?_, ?_⟩
  · rw [parseClockText_of_parts _ (text_no_whitespace _ hch.1) hlastne,
      splitColon_no_colon _ hcl]
    simp only [clockSeconds, parseFloatSafe_lastField s f hs hf, JsNum.finiteOrNull]
  · rw [parseClockText_of_parts _ (text_no_whitespace _ hch.2.1) (by simp),
      splitColon_append_colon _ _ (digitChars_no_colon m hm), splitColon_no_colon _ hcl]
    simp only [clockSeconds, parseFloatSafe_lastField s f hs hf, parseIntSafe_digitChars m hm]
  · rw [parseClockText_of_parts _ (text_no_whitespace _ hch.2.2) (by simp),
      splitColon_append_colon _ _ (digitChars_no_colon h hh),
      splitColon_append_colon _ _ (digitChars_no_colon m hm), splitColon_no_colon _ hcl]
    simp only [clockSeconds, parseFloatSafe_lastField s f hs hf, parseIntSafe_digitChars m hm,
      parseIntSafe_digitChars h hh]


theorem log2Fuel_spec : ∀ (fuel n : ℕ), n ≤ fuel → 0 < n →
    2 ^ JsNum.log2Fuel fuel n ≤ n ∧ n < 2 ^ (JsNum.log2Fuel fuel n + 1)
  | 0, n, h, h0 => by omega
  | fuel + 1, n, h, h0 => by
    unfold JsNum.log2Fuel
    by_cases h2 : n < 2
    · simp only [h2, if_true]
      omega
    · simp only [h2, if_false]
      have ih := log2Fuel_spec fuel (n / 2) (by omega) (by omega)
      have e1 : 2 ^ (JsNum.log2Fuel fuel (n / 2) + 1) = 2 * 2 ^ JsNum.log2Fuel fuel (n / 2) := by ring
      have e2 : 2 ^ (JsNum.log2Fuel fuel (n / 2) + 1 + 1) = 4 * 2 ^ JsNum.log2Fuel fuel (n / 2) := by ring
      rw [e2, e1]
      rw [e1] at ih
      omega

theorem scale2_nonneg (m : ℕ) (p : ℤ) : 0 ≤ JsNum.scale2 m p := by
  unfold JsNum.scale2
  split <;> positivity

theorem roundPos_cases (n d : ℕ) :
    JsNum.roundPos n d = .posInf ∨ ∃ v : ℚ, 0 ≤ v ∧ JsNum.roundPos n d = .fin v := by
  unfold JsNum.roundPos
  simp only []
  generalize JsNum.roundHalfEven _ _ = m
  by_cases hc : ((2 ^ 1024 : ℕ) : ℚ) ≤ JsNum.scale2 m (JsNum.quantumExp n d)
  · exact Or.inl (if_pos hc)
  · exact Or.inr ⟨_, scale2_nonneg _ _, if_neg hc⟩

theorem roundPos_nat (n : ℕ) (h0 : 0 < n) (h : n < 2 ^ 53) : JsNum.roundPos n 1 = .fin n := by
  obtain ⟨hlo, hhi⟩ := log2Fuel_spec n n le_rfl h0
  have hL : JsNum.log2Fuel n n < 53 := by
    by_contra hc
    have : 2 ^ 53 ≤ 2 ^ JsNum.log2Fuel n n := Nat.pow_le_pow_right (by norm_num) (by omega)
    omega
  obtain ⟨j, hj⟩ : ∃ j, JsNum.log2Fuel n n + j = 52 := ⟨52 - JsNum.log2Fuel n n, by omega⟩
  have h1 : JsNum.log2Fuel 1 1 = 0 := by decide
  have hlt : (n : ℚ) < 2 ^ 1024 := by
    have : n < 2 ^ 1024 := lt_of_lt_of_le h (Nat.pow_le_pow_right (by norm_num) (by norm_num))
    exact_mod_cast this
  have hexp : JsNum.binExponent n 1 = (JsNum.log2Fuel n n : ℤ) := by
    unfold JsNum.binExponent
    simp only [h1, Nat.cast_zero, sub_zero, Nat.cast_nonneg, if_true, Int.toNat_ofNat, one_mul,
      hlo, decide_True]
  have hq : JsNum.quantumExp n 1 = -(j : ℤ) := by
    unfold JsNum.quantumExp
    rw [hexp, max_eq_left (by omega)]
    omega
  unfold JsNum.roundPos
  simp only [hq]
  cases j with
  | zero =>
    simp [JsNum.roundHalfEven, JsNum.scale2, Nat.mod_one, hlt, not_le.mpr hlt]
  | succ j =>
    have hneg : ¬ (0 : ℤ) ≤ -((j + 1 : ℕ) : ℤ) := by omega
    have htn : (- -((j + 1 : ℕ) : ℤ)).toNat = j + 1 := by simp
    simp only [hneg, if_false, htn, JsNum.roundHalfEven, JsNum.scale2, Nat.div_one, Nat.mod_one,
      mul_zero, Nat.lt_one_iff, zero_lt_one, if_true]
    have hv : ((n * 2 ^ (j + 1) : ℕ) : ℚ) / ((2 ^ (j + 1) : ℕ) : ℚ) = (n : ℚ) := by
      push_cast
      field_simp
    rw [hv]
    simp [hlt, not_le.mpr hlt]

theorem ofRat_natCast (n : ℕ) (h : n < 2 ^ 53) : JsNum.ofRat (n : ℚ) = .fin (n : ℚ) := by
  rcases Nat.eq_zero_or_pos n with h0 | h0
  · subst h0
    simp [JsNum.ofRat]
  · have hq : (0 : ℚ) < (n : ℚ) := by exact_mod_cast h0
    have hne : (n : ℚ) ≠ 0 := ne_of_gt hq
    simp only [JsNum.ofRat, hne, if_false, hq, if_true, Rat.num_natCast, Int.toNat_ofNat,
      Rat.den_natCast]
    exact roundPos_nat n h0 h
theorem ofRat_samples :
    JsNum.ofRat (1 / 10) = .fin (3602879701896397 / 36028797018963968) ∧
    JsNum.ofRat 9007199254740993 = .fin 9007199254740992 ∧
    JsNum.ofRat 9007199254740995 = .fin 9007199254740996 ∧
    JsNum.ofRat (2 ^ 1024 - 2 ^ 970 - 1) = .fin (2 ^ 1024 - 2 ^ 971) ∧
    JsNum.ofRat (2 ^ 1024 - 2 ^ 970) = .posInf ∧
    JsNum.ofRat (1 / 2 ^ 1074) = .fin (1 / 2 ^ 1074) ∧
    JsNum.ofRat (3 / 2 ^ 1075) = .fin (1 / 2 ^ 1073) ∧
    JsNum.ofRat (1 / 2 ^ 1075) = .fin 0 ∧
    JsNum.ofRat (-(1 / 10)) = .fin (-(3602879701896397 / 36028797018963968)) ∧
    JsNum.finSub (2252679422987469 / 8796093022208) (2677530715960115 / 35184372088832)
      = .fin (6333186975989761 / 35184372088832) := by
  decide!

theorem fieldNumber_natCast (n : ℕ) (h : n < 2 ^ 53) : fieldNumber (n : ℚ) = (n : ℚ) := by
  simp [fieldNumber, ofRat_natCast n h, JsNum.finiteOr0]

theorem finMul_natCast (a b : ℕ) (h : a * b < 2 ^ 53) :
    JsNum.finMul (a : ℚ) (b : ℚ) = .fin ((a * b : ℕ) : ℚ) := by
  unfold JsNum.finMul
  rw [← Nat.cast_mul]
  exact ofRat_natCast _ h

theorem add_natCast (a b : ℕ) (h : a + b < 2 ^ 53) :
    JsNum.add (.fin (a : ℚ)) (.fin (b : ℚ)) = .fin ((a + b : ℕ) : ℚ) := by
  show JsNum.ofRat ((a : ℚ) + (b : ℚ)) = _
  rw [← Nat.cast_add]
  exact ofRat_natCast _ h

theorem exact_total (H M S : ℕ) (h : H * 3600 + M * 60 + S < 2 ^ 53) :
    ((JsNum.finMul (fieldNumber (H : ℚ)) 3600).add
        (JsNum.finMul (fieldNumber (M : ℚ)) 60)).add (.fin (fieldNumber (S : ℚ)))
      = .fin ((H * 3600 + M * 60 + S : ℕ) : ℚ) ∧
    (JsNum.finMul (fieldNumber (M : ℚ)) 60).add (.fin (fieldNumber (S : ℚ)))
      = .fin ((M * 60 + S : ℕ) : ℚ) := by
  have e1 : (3600 : ℚ) = ((3600 : ℕ) : ℚ) := by norm_num
  have e2 : (60 : ℚ) = ((60 : ℕ) : ℚ) := by norm_num
  rw [fieldNumber_natCast H (by omega), fieldNumber_natCast M (by omega),
    fieldNumber_natCast S (by omega), e1, e2, finMul_natCast H 3600 (by omega),
    finMul_natCast M 60 (by omega), add_natCast _ _ (by omega), add_natCast _ _ (by omega),
    add_natCast _ _ (by omega)]
  exact ⟨rfl, rfl⟩

/-! ## Clock texts -/

/-- C3 (counterexample). The well-formed text `1:32.01` has the exact total
92.01; `parseClockText` returns the double 92.00999999999999..., which is
below 92.01 and is not the double nearest to 92.01. A field of sixteen digits
is rounded (`9007199254740993` gives 9007199254740992) and a field of 400
nines overflows and counts as 0. -/
theorem parseClockText_exact_counterexample :
    String.mk (digitChars [1] ++ ':' :: lastField [3, 2] (some [0, 1])) = "1:32.01" ∧
    (decimalValue [1] : ℚ) * 60 + lastValue [3, 2] (some [0, 1]) = 9201 / 100 ∧
    parseClockText (some "1:32.01") = some (404664259486679 / 4398046511104) ∧
    (404664259486679 / 4398046511104 : ℚ) < 9201 / 100 ∧
    JsNum.ofRat (9201 / 100) ≠ .fin (404664259486679 / 4398046511104) ∧
    parseClockText (some "9007199254740993") = some 9007199254740992 ∧
    parseClockText (some ninesText) = some 0 := by
  decide!

/-- C3 (amended). For a clock text of one, two or three colon-separated
fields of decimal digits, the last field optionally followed by a dot and
fraction digits, `parseClockText` returns the total computed in double
arithmetic: each field is the double nearest to the number it writes (0 when
that overflows), and `s`, `m*60+s` or `h*3600+m*60+s` is evaluated with every
product and sum rounded to the nearest double, the result being `null` when
it is not finite. When there is no fraction and the exact total is below
2^53 this is the exact total. The three examples of the specification give
3723.5, the double written 129.8, and 45. -/
theorem parseClockText_wellFormed (h m s : List ℕ) (f : Option (List ℕ))
    (hh : AllDigits h) (hm : AllDigits m) (hs : AllDigits s)
    (hf : ∀ fd, f = some fd → AllDigits fd) (hne : s ≠ []) :
    (parseClockText (some (String.mk (lastField s f)))
      = some (fieldNumber (lastValue s f)) ∧
    parseClockText (some (String.mk (digitChars m ++ ':' :: lastField s f)))
      = ((JsNum.finMul (fieldNumber (decimalValue m)) 60).add
          (.fin (fieldNumber (lastValue s f)))).finiteOrNull ∧
    parseClockText (some (String.mk (digitChars h ++ ':' :: (digitChars m ++ ':' :: lastField s f))))
      = (((JsNum.finMul (fieldNumber (decimalValue h)) 3600).add
          (JsNum.finMul (fieldNumber (decimalValue m)) 60)).add
          (.fin (fieldNumber (lastValue s f)))).finiteOrNull) ∧
    (f = none → decimalValue h * 3600 + decimalValue m * 60 + decimalValue s < 2 ^ 53 →
      parseClockText (some (String.mk (lastField s f))) = some (decimalValue s : ℚ) ∧
      parseClockText (some (String.mk (digitChars m ++ ':' :: lastField s f)))
        = some ((decimalValue m * 60 + decimalValue s : ℕ) : ℚ) ∧
      parseClockText
          (some (String.mk (digitChars h ++ ':' :: (digitChars m ++ ':' :: lastField s f))))
        = some ((decimalValue h * 3600 + decimalValue m * 60 + decimalValue s : ℕ) : ℚ)) ∧
    parseClockText (some "1:02:03.5") = some 3723.5 ∧
    parseClockText (some "2:09.8") = (JsNum.ofRat 129.8).finiteOrNull ∧
    parseClockText (some "45") = some 45 := by
  have hw := parse_wellFormed h m s f hh hm hs hf hne
  refine ⟨hw, ?_, by decide!, by decide!, by decide!⟩
  intro hnone hlt
  subst hnone
  have hlv : lastValue s none = (decimalValue s : ℚ) := by simp [lastValue]
  have hx := exact_total (decimalValue h) (decimalValue m) (decimalValue s) hlt
  rw [hw.1, hw.2.1, hw.2.2, hlv, hx.1, hx.2, fieldNumber_natCast _ (by omega)]
  exact ⟨rfl, rfl, rfl⟩

/-- C3 (witness). The text `1:02:03.5` given by its digits. -/
theorem parseClockText_wellFormed_witness :
    AllDigits [1] ∧ AllDigits [0, 2] ∧ AllDigits [0, 3] ∧ AllDigits [5] ∧
    String.mk (digitChars [1] ++ ':' :: (digitChars [0, 2] ++ ':' :: lastField [0, 3] (some [5])))
      = "1:02:03.5" ∧
    parseClockText
        (some (String.mk
          (digitChars [1] ++ ':' :: (digitChars [0, 2] ++ ':' :: lastField [0, 3] (some [5])))))
      = (((JsNum.finMul (fieldNumber (decimalValue [1])) 3600).add
          (JsNum.finMul (fieldNumber (decimalValue [0, 2])) 60)).add
          (.fin (fieldNumber (lastValue [0, 3] (some [5]))))).finiteOrNull :=
  ⟨by simp [AllDigits], by simp [AllDigits], by simp [AllDigits], by simp [AllDigits], by decide,
    (parseClockText_wellFormed [1] [0, 2] [0, 3] (some [5]) (by simp [AllDigits])
      (by simp [AllDigits]) (by simp [AllDigits])
      (by intro fd h; injection h with h; subst h; simp [AllDigits]) (by simp)).1.2.2⟩

theorem parseIntSafe_no_digits (v : List Char) (h : ∀ c ∈ v, c.isDigit = false) :
    parseIntSafe v = 0 := by
  have hf : v.filter Char.isDigit = [] := List.filter_eq_nil_iff.mpr (by simpa using h)
  simp [parseIntSafe, parseIntDigits, hf, JsNum.finiteOr0]

theorem parseFloatClean_no_digits (cs : List Char) (h : ∀ c ∈ cs, c.isDigit = false) :
    parseFloatClean cs = .nan := by
  unfold parseFloatClean
  rw [takeWhile_eq_nil_of_none cs h, dropWhile_eq_self_of_none cs h]
  cases cs with
  | nil => simp
  | cons c r =>
    have hr : ∀ x ∈ r, x.isDigit = false := fun x hx => h x (List.mem_cons_of_mem _ hx)
    split
    · rename_i r2 heq
      injection heq with h1 h2
      subst h2
      simp [takeWhile_eq_nil_of_none _ hr]
    · simp

theorem parseFloatSafe_no_digits (v : List Char) (h : ∀ c ∈ v, c.isDigit = false) :
    parseFloatSafe v = 0 := by
  unfold parseFloatSafe
  rw [parseFloatClean_no_digits]
  · rfl
  · intro c hc
    exact h c (List.mem_filter.mp hc).1

theorem finiteOrNull_eq_none_iff (v : JsNum) : v.finiteOrNull = none ↔ v.isFinite = false := by
  cases v <;> simp [JsNum.finiteOrNull, JsNum.isFinite]

theorem parseClockText_some_eq (t : String) (hb : isBlank t = false) :
    parseClockText (some t) = (computedSeconds t).finiteOrNull := by
  have hne : jsTrim t.toList ≠ [] := by
    intro h
    have := (jsTrim_eq_nil_iff _).mp h
    simp [isBlank] at hb
    obtain ⟨c, hc, hw⟩ := hb
    rw [this c hc] at hw
    exact absurd hw (by simp)
  have hlen : (splitColon (jsTrim t.toList)).length ≠ 0 := by
    simpa using splitColon_ne_nil _
  simp only [parseClockText, Option.getD_some, List.isEmpty_iff, hne, if_false, hlen,
    computedSeconds]

theorem parseClockText_blank (t : String) (hb : isBlank t = true) :
    parseClockText (some t) = none := by
  have he : jsTrim t.toList = [] := by
    rw [jsTrim_eq_nil_iff]
    simpa [isBlank] using hb
  simp only [parseClockText, Option.getD_some, he, List.isEmpty_iff, if_true]

theorem clockSeconds_no_digits (parts : List (List Char))
    (h : ∀ p ∈ parts, ∀ c ∈ p, c.isDigit = false) : clockSeconds parts = .fin 0 := by
  unfold clockSeconds
  split
  · rename_i a b c
    rw [parseIntSafe_no_digits a (h a (by simp)), parseIntSafe_no_digits b (h b (by simp)),
      parseFloatSafe_no_digits c (h c (by simp))]
    simp [JsNum.finMul, JsNum.add, ofRat_zero]
  · rename_i a b
    rw [parseIntSafe_no_digits a (h a (by simp)), parseFloatSafe_no_digits b (h b (by simp))]
    simp [JsNum.finMul, JsNum.add, ofRat_zero]
  · rename_i a
    rw [parseFloatSafe_no_digits a (h a (by simp))]
  · rfl

theorem parseClockText_no_digits (t : String) (hb : isBlank t = false)
    (hd : ∀ c ∈ t.toList, c.isDigit = false) : parseClockText (some t) = some 0 := by
  rw [parseClockText_some_eq t hb, computedSeconds, clockSeconds_no_digits]
  · rfl
  · exact fun p hp c hc => hd c (jsTrim_subset _ c (splitColon_mem _ p hp c hc))

/-- C4. The function `parseClockText` returns `null` exactly when its input
is `null`, empty or made of white space only, or when the computed result is
not finite; so, the computed result being finite, it returns `null` exactly
for a null or blank input and a number for every other string. A field
without digits counts as 0 in both field parsers, and a text that is not
blank and holds no digit, such as `"::"`, parses to 0. The finiteness
condition is needed: the text `1`, 307 zeros, `:00:00` is not blank and
parses to `null`. -/
theorem parseClockText_null_iff (text : Option String) :
    (parseClockText text = none ↔
      text = none ∨ ∃ t, text = some t ∧
        (isBlank t = true ∨ (computedSeconds t).isFinite = false)) ∧
    (∀ t, text = some t → (computedSeconds t).isFinite = true →
      (parseClockText text = none ↔ isBlank t = true)) ∧
    (∀ t, text = some t → isBlank t = false → (computedSeconds t).isFinite = true →
      ∃ q : ℚ, parseClockText text = some q ∧ computedSeconds t = .fin q) ∧
    (∀ v : List Char, (∀ c ∈ v, c.isDigit = false) →
      parseIntSafe v = 0 ∧ parseFloatSafe v = 0) ∧
    (∀ t : String, isBlank t = false → (∀ c ∈ t.toList, c.isDigit = false) →
      parseClockText (some t) = some 0) ∧
    parseClockText (some "::") = some 0 ∧
    (isBlank overflowText = false ∧ parseClockText (some overflowText) = none) := by
  have hsome : ∀ t : String, parseClockText (some t) = none ↔
      (isBlank t = true ∨ (computedSeconds t).isFinite = false) := by
    intro t
    cases hb : isBlank t with
    | true => simp [parseClockText_blank t hb]
    | false =>
      rw [parseClockText_some_eq t hb, finiteOrNull_eq_none_iff]
      simp
  refine ⟨?_, ?_, ?_, ?_, ?_, by decide!, by decide!, by decide!⟩
  · cases text with
    | none => simp [parseClockText, jsTrim]
    | some t => simp [hsome t]
  · intro t ht hfin
    subst ht
    rw [hsome t, hfin]
    simp
  · intro t ht hb hfin
    subst ht
    rw [parseClockText_some_eq t hb]
    cases hv : computedSeconds t with
    | fin q => exact ⟨q, rfl, rfl⟩
    | posInf => rw [hv] at hfin; simp [JsNum.isFinite] at hfin
    | negInf => rw [hv] at hfin; simp [JsNum.isFinite] at hfin
    | nan => rw [hv] at hfin; simp [JsNum.isFinite] at hfin
  · exact fun v hv => ⟨parseIntSafe_no_digits v hv, parseFloatSafe_no_digits v hv⟩
  · exact parseClockText_no_digits

/-- C4 (witness). The text `"::"` is not blank, its computed result is
finite, and it parses to 0. -/
theorem parseClockText_null_iff_witness :
    isBlank "::" = false ∧ (computedSeconds "::").isFinite = true ∧
    (∀ c ∈ "::".toList, c.isDigit = false) ∧
    (parseClockText (some "::") = none ↔ isBlank "::" = true) ∧
    parseClockText (some "::") = some 0 :=
  ⟨by decide, by decide!, by decide,
    (parseClockText_null_iff (some "::")).2.1 "::" rfl (by decide!),
    (parseClockText_null_iff none).2.2.2.2.1 "::" (by decide) (by decide)⟩

/-! ## Lemmas on the tracker -/

theorem effectiveThreshold_ne_nan (st : Settings) : effectiveThreshold st ≠ .nan := by
  unfold effectiveThreshold JsNum.orElse
  cases h : st.thresholdSeconds with
  | fin q => by_cases hq : q = 0 <;> simp [JsNum.truthy, hq]
  | posInf => simp [JsNum.truthy]
  | negInf => simp [JsNum.truthy]
  | nan => simp [JsNum.truthy]

theorem finGt_eq_not_finLe (x : ℚ) (t : JsNum) (ht : t ≠ .nan) :
    JsNum.finGt x t = !JsNum.finLe x t := by
  cases t with
  | fin q =>
    rcases le_or_lt x q with h | h
    · simp [JsNum.finGt, JsNum.finLe, h, not_lt.mpr h]
    · simp [JsNum.finGt, JsNum.finLe, h, not_le.mpr h]
  | posInf => rfl
  | negInf => rfl
  | nan => exact absurd rfl ht

theorem firedAlert_alertEffects (st : Settings) : firedAlert (alertEffects st) = true := by
  simp [firedAlert, alertEffects]

theorem firedAlert_nil : firedAlert [] = false := rfl

theorem maybeAlert_eq (s : State) (st : Settings) (seconds : ℚ) (running : Bool) (now : ℤ)
    (hs : s.settings = some st) :
    maybeAlert s seconds running now =
      if running = true ∧ s.alertedOnce = false ∧
          JsNum.finLe seconds (effectiveThreshold st) = true ∧ 4000 ≤ now - s.lastAlertAt then
        ({ s with lastAlertAt := now, alertedOnce := true }, alertEffects st)
      else (s, []) := by
  unfold maybeAlert
  rw [hs]
  simp only [finGt_eq_not_finLe seconds _ (effectiveThreshold_ne_nan st)]
  have h4 : now - s.lastAlertAt < 4000 ↔ ¬ 4000 ≤ now - s.lastAlertAt := by omega
  simp only [h4]
  cases running <;> cases s.alertedOnce <;>
    cases JsNum.finLe seconds (effectiveThreshold st) <;>
    by_cases h5 : 4000 ≤ now - s.lastAlertAt <;> simp [h5]

theorem maybeAlert_no_settings (s : State) (seconds : ℚ) (running : Bool) (now : ℤ)
    (hs : s.settings = none) : maybeAlert s seconds running now = (s, []) := by
  unfold maybeAlert
  rw [hs]

theorem maybeAlert_alerted (s : State) (seconds : ℚ) (running : Bool) (now : ℤ)
    (ha : s.alertedOnce = true) : maybeAlert s seconds running now = (s, []) := by
  cases hs : s.settings with
  | none => exact maybeAlert_no_settings s seconds running now hs
  | some st => rw [maybeAlert_eq s st seconds running now hs]; simp [ha]

theorem maybeAlert_cases (s : State) (seconds : ℚ) (running : Bool) (now : ℤ) :
    maybeAlert s seconds running now = (s, []) ∨
      ∃ st, s.settings = some st ∧ s.alertedOnce = false ∧
        maybeAlert s seconds running now =
          ({ s with lastAlertAt := now, alertedOnce := true }, alertEffects st) := by
  rcases Option.eq_none_or_eq_some s.settings with hs | ⟨st, hs⟩
  · exact Or.inl (maybeAlert_no_settings s seconds running now hs)
  · rw [maybeAlert_eq s st seconds running now hs]
    by_cases hc : running = true ∧ s.alertedOnce = false ∧
        JsNum.finLe seconds (effectiveThreshold st) = true ∧ 4000 ≤ now - s.lastAlertAt
    · exact Or.inr ⟨st, hs, hc.2.1, by rw [if_pos hc]⟩
    · exact Or.inl (by rw [if_neg hc])

theorem tick_of_readings (s : State) (inp : TickInput) (mySec oppSec : ℚ)
    (hm : clockReading inp.my = some mySec) (ho : clockReading inp.opp = some oppSec) :
    tick s inp = tickBody (urlStep s inp.href).1 (urlStep s inp.href).2
      (isMyClockRunning inp.my inp.opp) mySec inp.now := by
  unfold tick
  cases hmy : inp.my with
  | none => rw [hmy] at hm; simp [clockReading] at hm
  | some a =>
    cases hop : inp.opp with
    | none => rw [hop] at ho; simp [clockReading] at ho
    | some b =>
      rw [hmy] at hm
      rw [hop] at ho
      simp only [clockReading] at hm ho
      simp only [hm, ho]

theorem tick_of_no_reading (s : State) (inp : TickInput)
    (h : clockReading inp.my = none ∨ clockReading inp.opp = none) :
    tick s inp = tickAborted (urlStep s inp.href).1 (urlStep s inp.href).2 := by
  unfold tick
  cases hmy : inp.my with
  | none => rfl
  | some a =>
    cases hop : inp.opp with
    | none => rfl
    | some b =>
      rw [hmy, hop] at h
      simp only [clockReading] at h
      rcases h with h | h
      · simp only [h]
      · simp only [h]
        split <;> simp_all

/-! ## The alert decision -/

/-- C1 (counterexample). Two inputs on which `maybeAlert` departs from the
claim: with a configured threshold of 0 a reading of 10 seconds fires
although 10 > 0, and before any alert has fired, at time 1000, a running
reading of 10 seconds under the threshold 30 fires nothing. -/
theorem maybeAlert_claim_counterexample :
    (zeroThresholdState.settings = some { DEFAULT_SETTINGS with thresholdSeconds := .fin 0 } ∧
      JsNum.finLe 10 (JsNum.fin 0) = false ∧
      firedAlert (maybeAlert zeroThresholdState 10 true 100000).2 = true) ∧
    (startState.alertedOnce = false ∧ startState.lastAlertAt = 0 ∧
      JsNum.finLe 10 DEFAULT_SETTINGS.thresholdSeconds = true ∧
      maybeAlert startState 10 true 1000 = (startState, [])) := by
  decide!

/-- C1 (amended). With settings loaded, `maybeAlert` fires exactly when the
clock is running, no alert has fired in this game, the reading is at most the
effective threshold (the configured one, or 30 when that is 0 or NaN) and
`now - lastAlertAt ≥ 4000`, where `lastAlertAt` is a number that starts at 0;
when it fires it sets `lastAlertAt = now` and `alertedOnce = true` and changes
nothing else, otherwise it has no effect and returns the state unchanged. -/
theorem maybeAlert_fires_iff (s : State) (st : Settings) (seconds : ℚ) (running : Bool)
    (now : ℤ) (hs : s.settings = some st) :
    (firedAlert (maybeAlert s seconds running now).2 = true ↔
      running = true ∧ s.alertedOnce = false ∧
        JsNum.finLe seconds (effectiveThreshold st) = true ∧ 4000 ≤ now - s.lastAlertAt) ∧
    (firedAlert (maybeAlert s seconds running now).2 = true →
      (maybeAlert s seconds running now).1 = { s with lastAlertAt := now, alertedOnce := true }) ∧
    (firedAlert (maybeAlert s seconds running now).2 = false →
      maybeAlert s seconds running now = (s, [])) ∧
    effectiveThreshold st =
      (if st.thresholdSeconds = .fin 0 ∨ st.thresholdSeconds = .nan then .fin 30
       else st.thresholdSeconds) := by
  have h4 : effectiveThreshold st =
      (if st.thresholdSeconds = .fin 0 ∨ st.thresholdSeconds = .nan then .fin 30
       else st.thresholdSeconds) := by
    unfold effectiveThreshold JsNum.orElse
    cases h : st.thresholdSeconds with
    | fin q => by_cases hq : q = 0 <;> simp [JsNum.truthy, hq]
    | posInf => simp [JsNum.truthy]
    | negInf => simp [JsNum.truthy]
    | nan => simp [JsNum.truthy]
  rw [maybeAlert_eq s st seconds running now hs]
  by_cases hc : running = true ∧ s.alertedOnce = false ∧
      JsNum.finLe seconds (effectiveThreshold st) = true ∧ 4000 ≤ now - s.lastAlertAt
  · rw [if_pos hc]
    refine ⟨⟨fun _ => hc, fun _ => firedAlert_alertEffects st⟩, fun _ => rfl, fun h => ?_, h4⟩
    rw [firedAlert_alertEffects st] at h
    exact absurd h (by simp)
  · rw [if_neg hc]
    refine ⟨⟨fun h => ?_, fun h => absurd h hc⟩, fun h => ?_, fun _ => rfl, h4⟩
    · rw [firedAlert_nil] at h
      exact absurd h (by simp)
    · rw [firedAlert_nil] at h
      exact absurd h (by simp)

/-- C1 (witness). The amended statement at the start state, a reading of 29
seconds and the time 100000. -/
theorem maybeAlert_fires_iff_witness :
    startState.settings = some DEFAULT_SETTINGS ∧
    (firedAlert (maybeAlert startState 29 true 100000).2 = true ↔
      true = true ∧ startState.alertedOnce = false ∧
        JsNum.finLe 29 (effectiveThreshold DEFAULT_SETTINGS) = true ∧
        4000 ≤ (100000 : ℤ) - startState.lastAlertAt) :=
  ⟨rfl, (maybeAlert_fires_iff startState DEFAULT_SETTINGS 29 true 100000 rfl).1⟩

theorem urlStep_same (s : State) (href : String) (h : s.lastUrl = some href) :
    urlStep s href = (s, false) := by
  simp [urlStep, h]

theorem urlStep_first (s : State) (href : String) (h : s.lastUrl = none) :
    urlStep s href = ({ s with lastUrl := some href }, false) := by
  simp [urlStep, h]

theorem urlStep_changed (s : State) (href u : String) (h : s.lastUrl = some u) (hne : u ≠ href) :
    urlStep s href = (resetForNewGame { s with lastUrl := some href }, true) := by
  simp [urlStep, h, hne]

theorem tick_cases (s : State) (inp : TickInput) :
    ((clockReading inp.my = none ∨ clockReading inp.opp = none) ∧
      tick s inp = tickAborted (urlStep s inp.href).1 (urlStep s inp.href).2) ∨
    ∃ mySec oppSec, clockReading inp.my = some mySec ∧ clockReading inp.opp = some oppSec ∧
      tick s inp = tickBody (urlStep s inp.href).1 (urlStep s inp.href).2
        (isMyClockRunning inp.my inp.opp) mySec inp.now := by
  cases hm : clockReading inp.my with
  | none => exact Or.inl ⟨Or.inl rfl, tick_of_no_reading s inp (Or.inl hm)⟩
  | some a =>
    cases ho : clockReading inp.opp with
    | none => exact Or.inl ⟨Or.inr rfl, tick_of_no_reading s inp (Or.inr ho)⟩
    | some b => exact Or.inr ⟨a, b, rfl, rfl, tick_of_readings s inp a b hm ho⟩

theorem urlStep_fields (s : State) (href : String) :
    (urlStep s href).1.settings = s.settings ∧
    (urlStep s href).1.lastAlertAt = s.lastAlertAt ∧
    (urlStep s href).1.lastUrl = some href ∧
    (urlStep s href).1.alertedOnce = (if (urlStep s href).2 then false else s.alertedOnce) ∧
    (urlStep s href).1.lastMySeconds = (if (urlStep s href).2 then none else s.lastMySeconds) ∧
    (urlStep s href).1.minMySecondsSeen =
      (if (urlStep s href).2 then .posInf else s.minMySecondsSeen) := by
  rcases Option.eq_none_or_eq_some s.lastUrl with hu | ⟨u, hu⟩
  · rw [urlStep_first s href hu]
    simp
  · by_cases hne : u = href
    · subst hne
      rw [urlStep_same s u hu]
      simp [hu]
    · rw [urlStep_changed s href u hu hne]
      simp [resetForNewGame]

theorem trackMin_fields (s : State) (mySec : ℚ) :
    (trackMin s mySec).settings = s.settings ∧
    (trackMin s mySec).lastAlertAt = s.lastAlertAt ∧
    (trackMin s mySec).lastUrl = s.lastUrl ∧
    (trackMin s mySec).alertedOnce = s.alertedOnce ∧
    (trackMin s mySec).lastMySeconds = s.lastMySeconds := by
  unfold trackMin
  split <;> simp

theorem maybeAlert_fields (s : State) (seconds : ℚ) (running : Bool) (now : ℤ) :
    (maybeAlert s seconds running now).1.settings = s.settings ∧
    (maybeAlert s seconds running now).1.lastUrl = s.lastUrl ∧
    (maybeAlert s seconds running now).1.minMySecondsSeen = s.minMySecondsSeen ∧
    (maybeAlert s seconds running now).1.alertedOnce =
      (s.alertedOnce || firedAlert (maybeAlert s seconds running now).2) ∧
    (s.alertedOnce = true → firedAlert (maybeAlert s seconds running now).2 = false) ∧
    (firedAlert (maybeAlert s seconds running now).2 = false →
      (maybeAlert s seconds running now).1 = s) := by
  rcases maybeAlert_cases s seconds running now with h | ⟨st, _, ha, h⟩
  · rw [h]
    simp [firedAlert_nil]
  · rw [h]
    simp [firedAlert_alertEffects, ha]

theorem decision_lastMy (s2 : State) (a : ℚ) :
    (if isTimeJump (trackMin s2 a) a then timeJumpReset (trackMin s2 a) a
      else trackMin s2 a).lastMySeconds =
      if isTimeJump (trackMin s2 a) a then none else s2.lastMySeconds := by
  split
  · rfl
  · exact (trackMin_fields s2 a).2.2.2.2

theorem tickBody_fields (s2 : State) (nav cls : Bool) (mySec : ℚ) (now : ℤ) :
    (tickBody s2 nav cls mySec now).state.settings = s2.settings ∧
    (tickBody s2 nav cls mySec now).state.lastUrl = s2.lastUrl ∧
    (tickBody s2 nav cls mySec now).state.lastMySeconds = some mySec ∧
    (tickBody s2 nav cls mySec now).navReset = nav ∧
    (tickBody s2 nav cls mySec now).jumpReset = isTimeJump (trackMin s2 mySec) mySec := by
  have ht := trackMin_fields s2 mySec
  refine ⟨?_, ?_, rfl, rfl, rfl⟩
  · show (maybeAlert (if isTimeJump (trackMin s2 mySec) mySec then
        timeJumpReset (trackMin s2 mySec) mySec else trackMin s2 mySec) mySec _ now).1.settings
        = s2.settings
    rw [(maybeAlert_fields _ _ _ _).1]
    split
    · exact ht.1
    · exact ht.1
  · show (maybeAlert (if isTimeJump (trackMin s2 mySec) mySec then
        timeJumpReset (trackMin s2 mySec) mySec else trackMin s2 mySec) mySec _ now).1.lastUrl
        = s2.lastUrl
    rw [(maybeAlert_fields _ _ _ _).2.1]
    split
    · exact ht.2.2.1
    · exact ht.2.2.1

theorem tick_settings_url (s : State) (inp : TickInput) :
    (tick s inp).state.settings = s.settings ∧ (tick s inp).state.lastUrl = some inp.href := by
  have hu := urlStep_fields s inp.href
  rcases tick_cases s inp with ⟨_, h⟩ | ⟨a, b, _, _, h⟩
  · rw [h]
    exact ⟨hu.1, hu.2.2.1⟩
  · rw [h]
    have hb := tickBody_fields (urlStep s inp.href).1 (urlStep s inp.href).2
      (isMyClockRunning inp.my inp.opp) a inp.now
    exact ⟨hb.1.trans hu.1, hb.2.1.trans hu.2.2.1⟩

/-! ## Ticks that cannot read both clocks -/

/-- C5 (counterexample). After an alert on `urlA`, a tick on `urlB` whose
self clock element is missing, or whose self clock text is blank, has no
reading and still runs the navigation reset: the state changes, `lastUrl`
becomes `urlB` and `alertedOnce` is cleared. -/
theorem tick_abort_claim_counterexample :
    (clockReading missingClockTick.my = none ∧
      (tick alertedState missingClockTick).state ≠ alertedState ∧
      (tick alertedState missingClockTick).navReset = true ∧
      (tick alertedState missingClockTick).state.alertedOnce = false ∧
      (tick alertedState missingClockTick).state.lastUrl = some urlB) ∧
    (clockReading blankClockTick.my = none ∧
      (tick alertedState blankClockTick).state ≠ alertedState ∧
      (tick alertedState blankClockTick).navReset = true) := by
  decide!

/-- C5 (amended). A tick in which either clock element is missing or either
clock text fails to parse does nothing after the navigation check that opens
every tick: the state it leaves is the one `urlStep` produced (the stored URL
set to the current one, and `resetForNewGame` applied when the URL differs
from a stored one), with no minimum update, no time-jump reset, no alert
decision and no effect; when the URL equals the stored one the whole state is
unchanged, and settings and `lastAlertAt` are unchanged in every case. -/
theorem tick_abort (s : State) (inp : TickInput)
    (h : clockReading inp.my = none ∨ clockReading inp.opp = none) :
    (tick s inp).state = (urlStep s inp.href).1 ∧
    (tick s inp).navReset = (urlStep s inp.href).2 ∧
    (tick s inp).jumpReset = false ∧
    (tick s inp).decision = none ∧
    (tick s inp).effects = [] ∧
    (s.lastUrl = some inp.href → (tick s inp).state = s ∧ (tick s inp).navReset = false) ∧
    (tick s inp).state.settings = s.settings ∧
    (tick s inp).state.lastAlertAt = s.lastAlertAt := by
  rw [tick_of_no_reading s inp h]
  refine ⟨rfl, rfl, rfl, rfl, rfl, ?_, ?_, ?_⟩
  · intro hu
    simp [tickAborted, urlStep_same s inp.href hu]
  · simp only [tickAborted, urlStep]
    split <;> split <;> rfl
  · simp only [tickAborted, urlStep]
    split <;> split <;> rfl

/-- C5 (witness). The amended statement at a tick without a self clock
element. -/
theorem tick_abort_witness :
    (clockReading missingClockTick.my = none ∨ clockReading missingClockTick.opp = none) ∧
    (tick alertedState missingClockTick).state = (urlStep alertedState missingClockTick.href).1 :=
  ⟨Or.inl rfl, (tick_abort alertedState missingClockTick (Or.inl rfl)).1⟩

/-! ## The frame of a reset -/

/-- C6 (counterexample). The function `resetForNewGame` also clears the field
`lastSeenSeconds`: on a state whose last seen reading is 29 it differs from
the state in which only `alertedOnce`, `lastMySeconds` and `minMySecondsSeen`
were reset. -/
theorem reset_frame_claim_counterexample :
    alertedState.lastSeenSeconds = some 29 ∧
    (resetForNewGame alertedState).lastSeenSeconds = none ∧
    resetForNewGame alertedState ≠
      { alertedState with alertedOnce := false, lastMySeconds := none,
                          minMySecondsSeen := .posInf } := by
  decide!

/-- C6 (amended). A reset changes exactly four fields: `alertedOnce` (to
false), `lastMySeconds` and its mirror `lastSeenSeconds` (to null) and
`minMySecondsSeen` (to +infinity, or to the triggering reading on a time-jump
reset). Settings and `lastAlertAt` are unchanged by every reset; `lastUrl` is
unchanged by `resetForNewGame` and by a time-jump reset, and the navigation
reset sets it to the new URL. A whole tick never changes the settings and
always leaves `lastUrl` at the current URL. -/
theorem reset_frame (s : State) (mySec : ℚ) (href u : String) (inp : TickInput)
    (hu : s.lastUrl = some u) (hne : u ≠ href) :
    resetForNewGame s =
      { settings := s.settings, lastAlertAt := s.lastAlertAt, lastSeenSeconds := none,
        lastMySeconds := none, alertedOnce := false, lastUrl := s.lastUrl,
        minMySecondsSeen := .posInf } ∧
    timeJumpReset s mySec =
      { settings := s.settings, lastAlertAt := s.lastAlertAt, lastSeenSeconds := none,
        lastMySeconds := none, alertedOnce := false, lastUrl := s.lastUrl,
        minMySecondsSeen := .fin mySec } ∧
    urlStep s href =
      ({ settings := s.settings, lastAlertAt := s.lastAlertAt, lastSeenSeconds := none,
         lastMySeconds := none, alertedOnce := false, lastUrl := some href,
         minMySecondsSeen := .posInf }, true) ∧
    (tick s inp).state.settings = s.settings ∧
    (tick s inp).state.lastUrl = some inp.href := by
  refine ⟨rfl, rfl, ?_, ?_, ?_⟩
  · rw [urlStep_changed s href u hu hne]
    rfl
  · exact (tick_settings_url s inp).1
  · exact (tick_settings_url s inp).2

/-- C6 (witness). The amended statement at the state reached after an alert
on `urlA`, for a move to `urlB`. -/
theorem reset_frame_witness :
    alertedState.lastUrl = some urlA ∧ urlA ≠ urlB ∧
    urlStep alertedState urlB =
      ({ settings := alertedState.settings, lastAlertAt := alertedState.lastAlertAt,
         lastSeenSeconds := none, lastMySeconds := none, alertedOnce := false,
         lastUrl := some urlB, minMySecondsSeen := .posInf }, true) :=
  ⟨rfl, by decide,
    (reset_frame alertedState 205 urlB urlA missingClockTick rfl (by decide)).2.2.1⟩

/-! ## The running flag -/

theorem decisionState_lastMy (s : State) (inp : TickInput) (mySec oppSec : ℚ)
    (hm : clockReading inp.my = some mySec) (ho : clockReading inp.opp = some oppSec) :
    (decisionState s inp.href mySec).lastMySeconds = previousReading s (tick s inp) := by
  have hu := urlStep_fields s inp.href
  rw [tick_of_readings s inp mySec oppSec hm ho]
  simp only [decisionState, preDecision, previousReading, tickBody]
  rw [decision_lastMy, hu.2.2.2.2.1]
  by_cases hj : isTimeJump (trackMin (urlStep s inp.href).1 mySec) mySec = true
  · simp [hj]
  · simp [hj]

/-- C9. A tick in which both readings parse calls `maybeAlert` on the state
reached after the boundary checks, with the self reading and with a running
flag equal to the logical OR of the page signal `isMyClockRunning` and of the
derived signal "the previous self reading is non-null and the current reading
is strictly below it": the effects and the state of the tick are those of
that call. The previous reading is `lastMySeconds` as the decision sees it:
the stored one when the tick has run no reset, null after a reset. With no
previous reading the flag is the page signal; a strictly decreasing reading
makes the flag true whatever the page signal, and then the alert fires as
soon as the other conditions of `maybeAlert` hold, also when the page signal
is false. -/
theorem running_flag (s : State) (inp : TickInput) (mySec oppSec : ℚ)
    (hm : clockReading inp.my = some mySec) (ho : clockReading inp.opp = some oppSec) :
    (tick s inp).effects =
      (maybeAlert (decisionState s inp.href mySec) mySec
        (isMyClockRunning inp.my inp.opp ||
          derivedSignal (decisionState s inp.href mySec).lastMySeconds mySec) inp.now).2 ∧
    (tick s inp).state =
      { (maybeAlert (decisionState s inp.href mySec) mySec
          (isMyClockRunning inp.my inp.opp ||
            derivedSignal (decisionState s inp.href mySec).lastMySeconds mySec) inp.now).1 with
        lastSeenSeconds := some mySec, lastMySeconds := some mySec } ∧
    (tick s inp).decision =
      some (mySec, isMyClockRunning inp.my inp.opp ||
        derivedSignal (decisionState s inp.href mySec).lastMySeconds mySec) ∧
    (decisionState s inp.href mySec).lastMySeconds = previousReading s (tick s inp) ∧
    ((tick s inp).navReset = false → (tick s inp).jumpReset = false →
      (decisionState s inp.href mySec).lastMySeconds = s.lastMySeconds) ∧
    ((decisionState s inp.href mySec).lastMySeconds = none →
      (isMyClockRunning inp.my inp.opp ||
        derivedSignal (decisionState s inp.href mySec).lastMySeconds mySec)
        = isMyClockRunning inp.my inp.opp) ∧
    (∀ p, (decisionState s inp.href mySec).lastMySeconds = some p → mySec < p →
      (isMyClockRunning inp.my inp.opp ||
        derivedSignal (decisionState s inp.href mySec).lastMySeconds mySec) = true) ∧
    (∀ (st : Settings) (p : ℚ), (decisionState s inp.href mySec).settings = some st →
      (decisionState s inp.href mySec).alertedOnce = false →
      (decisionState s inp.href mySec).lastMySeconds = some p → mySec < p →
      isMyClockRunning inp.my inp.opp = false →
      JsNum.finLe mySec (effectiveThreshold st) = true →
      4000 ≤ inp.now - (decisionState s inp.href mySec).lastAlertAt →
        firedAlert (tick s inp).effects = true) := by
  have hprev := decisionState_lastMy s inp mySec oppSec hm ho
  have ht := tick_of_readings s inp mySec oppSec hm ho
  have heff : (tick s inp).effects =
      (maybeAlert (decisionState s inp.href mySec) mySec
        (isMyClockRunning inp.my inp.opp ||
          derivedSignal (decisionState s inp.href mySec).lastMySeconds mySec) inp.now).2 := by
    rw [ht]
    rfl
  refine ⟨heff, ?_, ?_, hprev, ?_, ?_, ?_, ?_⟩
  · rw [ht]
    rfl
  · rw [ht]
    rfl
  · intro h1 h2
    rw [hprev]
    simp [previousReading, h1, h2]
  · intro hn
    rw [hn]
    simp [derivedSignal]
  · intro p hp hlt
    rw [hp]
    simp [derivedSignal, hlt]
  · intro st p hs ha hp hlt _ hle h4
    have hflag : (isMyClockRunning inp.my inp.opp ||
        derivedSignal (decisionState s inp.href mySec).lastMySeconds mySec) = true := by
      rw [hp]
      simp [derivedSignal, hlt]
    rw [heff, maybeAlert_eq _ st mySec _ inp.now hs, if_pos ⟨hflag, ha, hle, h4⟩]
    exact firedAlert_alertEffects st

/-- C9 (witness). After a reading of 31 seconds, a tick reading 29 seconds
while the page marks no clock as active: the flag comes from the derived
signal alone and the alert fires. -/
theorem running_flag_witness :
    clockReading (sample urlA "0:29" false 100500).my = some 29 ∧
    clockReading (sample urlA "0:29" false 100500).opp = some 300 ∧
    isMyClockRunning (sample urlA "0:29" false 100500).my
      (sample urlA "0:29" false 100500).opp = false ∧
    (tick descendingState (sample urlA "0:29" false 100500)).decision = some (29, true) ∧
    firedAlert (tick descendingState (sample urlA "0:29" false 100500)).effects = true :=
  ⟨by decide!, by decide!, by decide!, by decide!,
    (running_flag descendingState (sample urlA "0:29" false 100500) 29 300 (by decide!)
      (by decide!)).2.2.2.2.2.2.2 DEFAULT_SETTINGS 31 (by decide!) (by decide!) (by decide!)
      (by norm_num) (by decide!) (by decide!) (by decide!)⟩

/-! ## The alert message -/

theorem valueOr_table (language : String) (h : language ∉ objectPrototypeKeys) :
    valueOr (I18N_MESSAGES language) "Your time is low" = .str (builtinPhrase language) := by
  unfold I18N_MESSAGES builtinPhrase
  split_ifs <;> simp_all [valueOr]

theorem trimString_eq_empty_iff (t : String) : trimString t = "" ↔ isBlank t = true := by
  unfold trimString isBlank
  rw [List.all_eq_true, ← jsTrim_eq_nil_iff]
  constructor
  · intro h
    have := congrArg String.toList h
    simpa using this
  · intro h
    rw [h]

theorem length_pos_of_ne_empty (t : String) (h : t ≠ "") : 0 < t.length := by
  rcases t with ⟨l⟩
  cases l with
  | nil => exact absurd rfl h
  | cons c cs => simp [String.length]

/-- C10 (counterexample). A custom message made of three spaces is non-empty
and `getMessage` resolves the English phrase instead; with the custom message
`" hi "` the content script resolves `"hi"` and the background `" hi "`; and
with an empty custom message and the language code `constructor`, which is
none of the seven codes, both functions resolve the inherited property
`constructor` of the phrase table, not the English phrase. -/
theorem message_claim_counterexample :
    (({ DEFAULT_SETTINGS with customMessage := "   " } : Settings).customMessage ≠ "" ∧
      getMessage { DEFAULT_SETTINGS with customMessage := "   " } = .str "Your time is low") ∧
    (getMessage { DEFAULT_SETTINGS with customMessage := " hi " } = .str "hi" ∧
      getMessageText { DEFAULT_SETTINGS with customMessage := " hi " } = .str " hi " ∧
      getMessage { DEFAULT_SETTINGS with customMessage := " hi " } ≠
        getMessageText { DEFAULT_SETTINGS with customMessage := " hi " }) ∧
    ("constructor" ∉ ["en", "tr", "hu", "es", "de", "it", "pt"] ∧
      getMessage { DEFAULT_SETTINGS with customMessage := "", language := "constructor" }
        = .inherited "constructor" ∧
      getMessageText { DEFAULT_SETTINGS with customMessage := "", language := "constructor" }
        = .inherited "constructor" ∧
      getMessage { DEFAULT_SETTINGS with customMessage := "", language := "constructor" }
        ≠ .str "Your time is low") := by
  decide

/-- C10 (amended). When the custom message is not blank and carries no white
space at either end, `getMessage` and `getMessageText` both resolve the custom
message. When it is blank (empty or white space only) and the language code
is not the name of a property inherited from `Object.prototype`, both resolve
the built-in phrase of `settings.language`: the table entry for en, tr, hu,
es, de, it, pt and the English phrase "Your time is low" for every other
code. On these settings the two functions resolve the same message. -/
theorem message_resolution (st : Settings) :
    (isBlank st.customMessage = false → trimString st.customMessage = st.customMessage →
      getMessage st = .str st.customMessage ∧ getMessageText st = .str st.customMessage) ∧
    (isBlank st.customMessage = true → st.language ∉ objectPrototypeKeys →
      getMessage st = .str (builtinPhrase st.language) ∧
      getMessageText st = .str (builtinPhrase st.language)) ∧
    (st.language ∉ ["en", "tr", "hu", "es", "de", "it", "pt"] →
      builtinPhrase st.language = "Your time is low") ∧
    (List.map builtinPhrase ["en", "tr", "hu", "es", "de", "it", "pt"] =
      ["Your time is low", "Süren azaldı", "Kevés az időd", "Te queda poco tiempo",
       "Deine Zeit wird knapp", "Il tuo tempo è basso", "Seu tempo está acabando"]) := by
  refine ⟨?_, ?_, ?_, ?_⟩
  · intro hb ht
    have hne : st.customMessage ≠ "" := by
      intro h
      rw [h] at hb
      exact absurd hb (by decide)
    constructor
    · simp [getMessage, ht, hne]
    · have hlen := length_pos_of_ne_empty _ hne
      simp [getMessageText, ht, hne, hlen]
  · intro hb hp
    have ht := (trimString_eq_empty_iff _).mpr hb
    constructor
    · simp [getMessage, ht, valueOr_table _ hp]
    · simp [getMessageText, ht, valueOr_table _ hp]
  · intro hl
    simp only [List.mem_cons, List.mem_singleton, List.not_mem_nil, or_false, not_or] at hl
    unfold builtinPhrase
    split <;> simp_all
  · decide

/-- C10 (witness). The amended statement at the default settings, whose
custom message is "Time is running low!", and at the same settings with an
empty custom message. -/
theorem message_resolution_witness :
    isBlank DEFAULT_SETTINGS.customMessage = false ∧
    trimString DEFAULT_SETTINGS.customMessage = DEFAULT_SETTINGS.customMessage ∧
    getMessage DEFAULT_SETTINGS = .str "Time is running low!" ∧
    getMessageText DEFAULT_SETTINGS = .str "Time is running low!" ∧
    getMessage { DEFAULT_SETTINGS with customMessage := "" }
      = .str (builtinPhrase DEFAULT_SETTINGS.language) :=
  ⟨by decide, by decide,
    ((message_resolution DEFAULT_SETTINGS).1 (by decide) (by decide)).1,
    ((message_resolution DEFAULT_SETTINGS).1 (by decide) (by decide)).2,
    ((message_resolution { DEFAULT_SETTINGS with customMessage := "" }).2.1 (by decide)
      (by decide)).1⟩

/-! ## At most one alert per game -/

theorem tick_no_reset (s : State) (inp : TickInput) (hn : (tick s inp).navReset = false)
    (hj : (tick s inp).jumpReset = false) :
    (tick s inp).state.alertedOnce = (s.alertedOnce || firedAlert (tick s inp).effects) ∧
    (s.alertedOnce = true → firedAlert (tick s inp).effects = false) := by
  have hu := urlStep_fields s inp.href
  rcases tick_cases s inp with ⟨_, ht⟩ | ⟨a, b, _, _, ht⟩
  · rw [ht] at hn ⊢
    simp only [tickAborted] at hn ⊢
    rw [hu.2.2.2.1, hn]
    simp [firedAlert_nil]
  · rw [ht] at hn hj ⊢
    have hb := tickBody_fields (urlStep s inp.href).1 (urlStep s inp.href).2
      (isMyClockRunning inp.my inp.opp) a inp.now
    rw [hb.2.2.2.1] at hn
    rw [hb.2.2.2.2] at hj
    have hs4 : (trackMin (urlStep s inp.href).1 a).alertedOnce = s.alertedOnce := by
      rw [(trackMin_fields _ _).2.2.2.1, hu.2.2.2.1, hn]
      simp
    simp only [tickBody, hj, Bool.false_eq_true, if_false]
    have hf := maybeAlert_fields (trackMin (urlStep s inp.href).1 a) a
      (isMyClockRunning inp.my inp.opp || decreasing (trackMin (urlStep s inp.href).1 a) a) inp.now
    rw [hs4] at hf
    exact ⟨hf.2.2.2.1, hf.2.2.2.2.1⟩

theorem step_no_reset (s : State) (e : Event) (h : (step s e).2.2 = false) :
    (step s e).1.alertedOnce = (s.alertedOnce || (step s e).2.1) ∧
    (s.alertedOnce = true → (step s e).2.1 = false) := by
  cases e with
  | tick inp =>
    simp only [step, Bool.or_eq_false_iff] at h
    exact tick_no_reset s inp h.1 h.2
  | pageAlert o =>
    cases o with
    | none => simp [step]
    | some st => simp [step]

theorem fireCount_bound (evs : List Event) :
    ∀ s : State, resetCount s evs = 0 →
      fireCount s evs ≤ (if s.alertedOnce = true then 0 else 1) ∧
      (s.alertedOnce = true → (runState s evs).alertedOnce = true) := by
  induction evs with
  | nil =>
    intro s _
    constructor
    · simp only [fireCount]
      split <;> omega
    · exact fun h => h
  | cons e es ih =>
    intro s h
    simp only [resetCount] at h
    have hr : (step s e).2.2 = false := by
      by_contra hc
      simp only [Bool.not_eq_false] at hc
      rw [hc] at h
      simp at h
    have hrest : resetCount (step s e).1 es = 0 := by omega
    have hstep := step_no_reset s e hr
    have ih2 := ih (step s e).1 hrest
    simp only [fireCount, runState]
    cases ha : s.alertedOnce with
    | true =>
      have hf := hstep.2 ha
      have ha2 : (step s e).1.alertedOnce = true := by rw [hstep.1, ha]; rfl
      rw [ha2] at ih2
      simp only [if_true] at ih2
      simp only [hf, Bool.false_eq_true, if_false, if_true]
      exact ⟨by omega, fun _ => ih2.2 trivial⟩
    | false =>
      cases hf : (step s e).2.1 with
      | true =>
        have ha2 : (step s e).1.alertedOnce = true := by rw [hstep.1, hf]; simp
        rw [ha2] at ih2
        simp only [if_true] at ih2
        simp only [if_true, Bool.false_eq_true, if_false]
        exact ⟨by omega, fun hc => absurd hc (by simp)⟩
      | false =>
        have ha2 : (step s e).1.alertedOnce = false := by rw [hstep.1, hf, ha]; rfl
        rw [ha2] at ih2
        simp only [Bool.false_eq_true, if_false] at ih2
        simp only [Bool.false_eq_true, if_false]
        exact ⟨by omega, fun hc => absurd hc (by simp)⟩

/-- C2. Along any list of ticks and settings messages in which no tick runs
`resetForNewGame` (no URL change, no time jump above 180 s) the alert fires
at most once; from a state where `alertedOnce` is already true nothing fires
and the flag stays true, every call of `maybeAlert` returning the state
unchanged; evaluating `maybeAlert` a second time after it has fired fires
nothing; and an event that turns `alertedOnce` from true to false is a tick
that ran `resetForNewGame`. -/
theorem alert_at_most_once (s : State) (evs : List Event) (h : resetCount s evs = 0) :
    fireCount s evs ≤ 1 ∧
    (s.alertedOnce = true → fireCount s evs = 0 ∧ (runState s evs).alertedOnce = true) ∧
    (s.alertedOnce = true → ∀ (seconds : ℚ) (running : Bool) (now : ℤ),
      maybeAlert s seconds running now = (s, [])) ∧
    (∀ (seconds : ℚ) (running : Bool) (now now2 : ℤ),
      firedAlert (maybeAlert s seconds running now).2 = true →
        maybeAlert (maybeAlert s seconds running now).1 seconds running now2
          = ((maybeAlert s seconds running now).1, [])) ∧
    (∀ e : Event, s.alertedOnce = true → (step s e).1.alertedOnce = false →
      (step s e).2.2 = true) := by
  have hb := fireCount_bound evs s h
  refine ⟨?_, ?_, ?_, ?_, ?_⟩
  · have := hb.1
    split at this <;> omega
  · intro ha
    have := hb.1
    rw [if_pos ha] at this
    exact ⟨by omega, hb.2 ha⟩
  · exact fun ha seconds running now => maybeAlert_alerted s seconds running now ha
  · intro seconds running now now2 hf
    apply maybeAlert_alerted
    rw [(maybeAlert_fields s seconds running now).2.2.2.1, hf]
    simp
  · intro e ha hc
    by_contra hr
    simp only [Bool.not_eq_true] at hr
    have := (step_no_reset s e hr).1
    rw [ha, hc] at this
    simp at this

/-- C2 (witness). Scenarios A and B: readings 40, 35, 31, 29, 15 run no
reset; the alert fires on the fourth tick (29 s) and on no other, with the
configured custom message on the banner. -/
theorem alert_at_most_once_witness :
    resetCount startState scenarioAB = 0 ∧
    fireCount startState scenarioAB ≤ 1 ∧
    fireCount startState scenarioAB = 1 ∧
    fireCount startState (scenarioAB.take 3) = 0 ∧
    fireCount startState (scenarioAB.take 4) = 1 ∧
    Effect.banner (.str DEFAULT_SETTINGS.customMessage) ∈
      (tick (runState startState (scenarioAB.take 3)) (sample urlA "0:29" true 101500)).effects :=
  ⟨by decide!, (alert_at_most_once startState scenarioAB (by decide!)).1, by decide!, by decide!,
    by decide!, by decide!⟩

/-! ## Time jumps and navigation re-arm the alert -/

theorem gtFin_ofRat_nonpos (q d : ℚ) (hq : q ≤ 0) (hd : 0 ≤ d) :
    JsNum.gtFin (JsNum.ofRat q) d = false := by
  unfold JsNum.ofRat
  by_cases h0 : q = 0
  · simp only [h0, if_true, JsNum.gtFin, decide_eq_false_iff_not, not_lt]
    exact hd
  · have hneg : ¬ 0 < q := not_lt.mpr hq
    simp only [h0, if_false, hneg]
    rcases roundPos_cases (-q).num.toNat q.den with h | ⟨v, hv, h⟩
    · rw [h]
      rfl
    · rw [h]
      simp only [JsNum.neg, JsNum.gtFin, decide_eq_false_iff_not, not_lt]
      linarith

theorem isTimeJump_iff (s2 : State) (a : ℚ) :
    isTimeJump (trackMin s2 a) a = true ↔
      ∃ m, s2.minMySecondsSeen = .fin m ∧ JsNum.gtFin (JsNum.finSub a m) 180 = true := by
  have hself : JsNum.gtFin (JsNum.finSub a a) 180 = false :=
    gtFin_ofRat_nonpos (a - a) 180 (by simp) (by norm_num)
  unfold isTimeJump trackMin
  cases hmin : s2.minMySecondsSeen with
  | fin m =>
    by_cases hlt : a < m
    · have hlow : JsNum.gtFin (JsNum.finSub a m) 180 = false :=
        gtFin_ofRat_nonpos (a - m) 180 (by linarith) (by norm_num)
      simp [JsNum.finLt, hlt, JsNum.isFinite, JsNum.finSubGt, hself, hlow]
    · simp [JsNum.finLt, hlt, hmin, JsNum.isFinite, JsNum.finSubGt]
  | posInf => simp [JsNum.finLt, JsNum.isFinite, JsNum.finSubGt, hself]
  | negInf => simp [JsNum.finLt, hmin, JsNum.isFinite]
  | nan => simp [JsNum.finLt, hmin, JsNum.isFinite]

theorem finLe_effective (x : ℚ) (st : Settings) (h : JsNum.finLe x st.thresholdSeconds = true) :
    JsNum.finLe x (effectiveThreshold st) = true := by
  unfold effectiveThreshold JsNum.orElse
  cases ht : st.thresholdSeconds with
  | fin q =>
    rw [ht] at h
    by_cases hq : q = 0
    · subst hq
      simp only [JsNum.finLe, decide_eq_true_eq] at h
      simp only [JsNum.truthy, ne_eq, not_true_eq_false, decide_False, Bool.false_eq_true,
        if_false, JsNum.finLe, decide_eq_true_eq]
      linarith
    · simpa [JsNum.truthy, hq] using h
  | posInf => simp [JsNum.truthy, JsNum.finLe]
  | negInf => rw [ht] at h; simp [JsNum.finLe] at h
  | nan => rw [ht] at h; simp [JsNum.finLe] at h

theorem tickBody_fires (s2 : State) (st : Settings) (nav cls : Bool) (a : ℚ) (now : ℤ)
    (hs : s2.settings = some st) (ha : s2.alertedOnce = false)
    (hj : isTimeJump (trackMin s2 a) a = false)
    (hrun : cls = true ∨ ∃ p, s2.lastMySeconds = some p ∧ a < p)
    (hle : JsNum.finLe a (effectiveThreshold st) = true)
    (h4 : 4000 ≤ now - s2.lastAlertAt) :
    firedAlert (tickBody s2 nav cls a now).effects = true ∧
    (tickBody s2 nav cls a now).state.alertedOnce = true ∧
    (tickBody s2 nav cls a now).state.lastAlertAt = now := by
  have ht := trackMin_fields s2 a
  have hrunning : (cls || decreasing (trackMin s2 a) a) = true := by
    rcases hrun with h | ⟨p, hp, hlt⟩
    · simp [h]
    · simp [decreasing, ht.2.2.2.2, hp, hlt]
  have hm := maybeAlert_eq (trackMin s2 a) st a (cls || decreasing (trackMin s2 a) a) now
    (ht.1.trans hs)
  rw [if_pos ⟨hrunning, ht.2.2.2.1.trans ha, hle, by rw [ht.2.1]; exact h4⟩] at hm
  simp only [tickBody, hj, Bool.false_eq_true, if_false, hm, firedAlert_alertEffects, and_self]

theorem tick_jump_state (s : State) (inp : TickInput) (mySec oppSec : ℚ)
    (hm : clockReading inp.my = some mySec) (ho : clockReading inp.opp = some oppSec)
    (hj : (tick s inp).jumpReset = true) (hf : firedAlert (tick s inp).effects = false) :
    (tick s inp).state =
      { settings := s.settings, lastAlertAt := s.lastAlertAt, lastSeenSeconds := some mySec,
        lastMySeconds := some mySec, alertedOnce := false, lastUrl := some inp.href,
        minMySecondsSeen := .fin mySec } := by
  have hu := urlStep_fields s inp.href
  have ht := trackMin_fields (urlStep s inp.href).1 mySec
  rw [tick_of_readings s inp mySec oppSec hm ho] at hj hf ⊢
  have hj2 : isTimeJump (trackMin (urlStep s inp.href).1 mySec) mySec = true := hj
  simp only [tickBody, hj2, if_true] at hf ⊢
  rw [(maybeAlert_fields _ _ _ _).2.2.2.2.2 hf]
  simp [timeJumpReset, resetForNewGame, ht.1, ht.2.1, ht.2.2.1, hu.1, hu.2.1, hu.2.2.1]

/-- C7 (counterexample). After a reading of `0:00.3` a tick on the same URL
reads `3:00.3`: the running minimum is finite and the reading exceeds it by
more than 180 seconds, yet no reset runs, the difference computed in doubles
being exactly 180. Conversely the clock texts `1:16.1` and `4:16.1` write
totals that differ by exactly 180 seconds, and the second tick runs the
reset, the difference computed in doubles being above 180. -/
theorem time_jump_claim_counterexample :
    ((tick startState (sample urlA "0:00.3" true 100000)).state.minMySecondsSeen
        = .fin (5404319552844595 / 18014398509481984) ∧
      (tick startState (sample urlA "0:00.3" true 100000)).state.lastUrl = some urlA ∧
      clockReading (sample urlA "3:00.3" true 100500).my
        = some (3171871143808205 / 17592186044416) ∧
      (180 : ℚ) < 3171871143808205 / 17592186044416 - 5404319552844595 / 18014398509481984 ∧
      (tick (tick startState (sample urlA "0:00.3" true 100000)).state
        (sample urlA "3:00.3" true 100500)).jumpReset = false) ∧
    ((decimalValue [4] : ℚ) * 60 + lastValue [1, 6] (some [1])
        - ((decimalValue [1] : ℚ) * 60 + lastValue [1, 6] (some [1])) = 180 ∧
      (tick (tick startState (sample urlA "1:16.1" true 100000)).state
        (sample urlA "4:16.1" true 100500)).jumpReset = true) := by
  decide!

/-- C7 (amended). In a tick with both readings parsed and no URL change, the
time-jump reset runs exactly when the running minimum held before the tick is
finite and the difference reading minus minimum, computed in double
arithmetic (the exact difference rounded to the nearest double), is greater
than 180. The reset leaves the running minimum at that reading, so a next
tick on the same URL whose difference to it, computed the same way, is not
greater than 180 runs no reset; and when the reset tick has not itself fired,
a later tick with a lower reading, at or below the threshold and at least
4000 ms after the previous alert, fires the alert again. In scenario D (10 s,
then 205 s, then 25 s) the alert fires twice. -/
theorem time_jump_reset (s : State) (inp : TickInput) (mySec oppSec : ℚ)
    (hm : clockReading inp.my = some mySec) (ho : clockReading inp.opp = some oppSec)
    (hurl : s.lastUrl = none ∨ s.lastUrl = some inp.href) :
    ((tick s inp).jumpReset = true ↔
      ∃ m, s.minMySecondsSeen = .fin m ∧ JsNum.gtFin (JsNum.finSub mySec m) 180 = true) ∧
    ((tick s inp).jumpReset = true →
      (tick s inp).state.minMySecondsSeen = .fin mySec) ∧
    (∀ (inp2 : TickInput) (my2 opp2 : ℚ), (tick s inp).jumpReset = true →
      inp2.href = inp.href → clockReading inp2.my = some my2 →
      clockReading inp2.opp = some opp2 →
      JsNum.gtFin (JsNum.finSub my2 mySec) 180 = false →
        (tick (tick s inp).state inp2).jumpReset = false ∧
        (tick (tick s inp).state inp2).navReset = false) ∧
    (∀ (inp2 : TickInput) (my2 opp2 : ℚ) (st : Settings), (tick s inp).jumpReset = true →
      firedAlert (tick s inp).effects = false → s.settings = some st →
      inp2.href = inp.href → clockReading inp2.my = some my2 →
      clockReading inp2.opp = some opp2 → my2 < mySec →
      JsNum.finLe my2 (effectiveThreshold st) = true → 4000 ≤ inp2.now - s.lastAlertAt →
        firedAlert (tick (tick s inp).state inp2).effects = true) ∧
    (step (step startState (.tick (sample urlA "0:10" true 100000))).1
        (.tick (sample urlA "3:25" true 100500))).2.2 = true ∧
    fireCount startState scenarioD = 2 := by
  have hu2 : urlStep s inp.href = ((urlStep s inp.href).1, false) := by
    rcases hurl with h | h
    · rw [urlStep_first s inp.href h]
    · rw [urlStep_same s inp.href h]
  have humin : (urlStep s inp.href).1.minMySecondsSeen = s.minMySecondsSeen := by
    have := (urlStep_fields s inp.href).2.2.2.2.2
    rw [hu2] at this
    simpa using this
  have hjump : (tick s inp).jumpReset = true ↔
      ∃ m, s.minMySecondsSeen = .fin m ∧ JsNum.gtFin (JsNum.finSub mySec m) 180 = true := by
    rw [tick_of_readings s inp mySec oppSec hm ho, (tickBody_fields _ _ _ _ _).2.2.2.2,
      isTimeJump_iff, humin]
  have hmin : (tick s inp).jumpReset = true →
      (tick s inp).state.minMySecondsSeen = .fin mySec := by
    intro hj
    rw [tick_of_readings s inp mySec oppSec hm ho] at hj ⊢
    have hj2 : isTimeJump (trackMin (urlStep s inp.href).1 mySec) mySec = true := hj
    simp only [tickBody, hj2, if_true]
    rw [(maybeAlert_fields _ _ _ _).2.2.1]
    rfl
  have hurl1 : (tick s inp).state.lastUrl = some inp.href := (tick_settings_url s inp).2
  refine ⟨hjump, hmin, ?_, ?_, by decide!, by decide!⟩
  · intro inp2 my2 opp2 hj hh hm2 ho2 hle
    have hs1 := urlStep_same (tick s inp).state inp2.href (by rw [hurl1, hh])
    rw [tick_of_readings _ inp2 my2 opp2 hm2 ho2, hs1]
    refine ⟨?_, rfl⟩
    rw [(tickBody_fields _ _ _ _ _).2.2.2.2]
    by_contra hc
    simp only [Bool.not_eq_false] at hc
    obtain ⟨m, hmm, hgt⟩ := (isTimeJump_iff _ _).mp hc
    rw [hmin hj] at hmm
    injection hmm with hmm
    subst hmm
    rw [hle] at hgt
    exact absurd hgt (by simp)
  · intro inp2 my2 opp2 st hj hf hs hh hm2 ho2 hlt hle h4
    have hst := tick_jump_state s inp mySec oppSec hm ho hj hf
    have hs1 := urlStep_same (tick s inp).state inp2.href (by rw [hurl1, hh])
    rw [tick_of_readings _ inp2 my2 opp2 hm2 ho2, hs1]
    refine (tickBody_fires (tick s inp).state st false _ my2 inp2.now ?_ ?_ ?_ ?_ hle ?_).1
    · rw [hst]; exact hs
    · rw [hst]
    · by_contra hc
      simp only [Bool.not_eq_false] at hc
      obtain ⟨m, hmm, hgt⟩ := (isTimeJump_iff _ _).mp hc
      rw [hst] at hmm
      injection hmm with hmm
      subst hmm
      have hlow : JsNum.gtFin (JsNum.finSub my2 mySec) 180 = false :=
        gtFin_ofRat_nonpos (my2 - mySec) 180 (by linarith) (by norm_num)
      rw [hlow] at hgt
      exact absurd hgt (by simp)
    · exact Or.inr ⟨mySec, by rw [hst], hlt⟩
    · rw [hst]; exact h4

/-- C7 (witness). The second tick of scenario D: the reading 205 against a
running minimum of 10 on an unchanged URL. -/
theorem time_jump_reset_witness :
    clockReading (sample urlA "3:25" true 100500).my = some 205 ∧
    clockReading (sample urlA "3:25" true 100500).opp = some 300 ∧
    (tick startState (sample urlA "0:10" true 100000)).state.lastUrl = some urlA ∧
    ((tick (tick startState (sample urlA "0:10" true 100000)).state
        (sample urlA "3:25" true 100500)).jumpReset = true ↔
      ∃ m, (tick startState (sample urlA "0:10" true 100000)).state.minMySecondsSeen = .fin m ∧
        JsNum.gtFin (JsNum.finSub 205 m) 180 = true) :=
  ⟨by decide!, by decide!, by decide!,
    (time_jump_reset (tick startState (sample urlA "0:10" true 100000)).state
      (sample urlA "3:25" true 100500) 205 300 (by decide!) (by decide!)
      (Or.inr (by decide!))).1⟩

/-- C8 (counterexample). After an alert at time 100000 on `urlA`, a tick on
`urlB` at time 100500 with a reading of 25 seconds, the threshold 30 and the
self clock marked active runs the navigation reset and fires nothing, the
previous alert being 500 ms old; and at time 200000 a tick on `urlB` whose
reading went down from 29 to 25 seconds while the page marks no clock active
fires nothing either, the reset having cleared the previous reading. -/
theorem navigation_claim_counterexample :
    (alertedState.alertedOnce = true ∧ alertedState.lastUrl ≠ some urlB ∧
      clockReading (sample urlB "0:25" true 100500).my = some 25 ∧
      JsNum.finLe 25 DEFAULT_SETTINGS.thresholdSeconds = true ∧
      isMyClockRunning (sample urlB "0:25" true 100500).my
        (sample urlB "0:25" true 100500).opp = true ∧
      (tick alertedState (sample urlB "0:25" true 100500)).navReset = true ∧
      (tick alertedState (sample urlB "0:25" true 100500)).effects = []) ∧
    (alertedState.lastMySeconds = some 29 ∧
      (tick alertedState (sample urlB "0:25" false 200000)).navReset = true ∧
      (tick alertedState (sample urlB "0:25" false 200000)).decision = some (25, false) ∧
      (tick alertedState (sample urlB "0:25" false 200000)).effects = []) := by
  decide!

/-- C8 (amended). From a state with settings loaded in which an alert has
fired, a tick whose URL differs from the stored one, with both clocks
readable, the self reading at or below the threshold, the page marking the
self clock (and not the opponent clock) as active, and at least 4000 ms after
the previous alert, runs the navigation reset and fires the alert again. -/
theorem navigation_rearms (s : State) (st : Settings) (inp : TickInput) (mySec oppSec : ℚ)
    (u : String) (hs : s.settings = some st) (_ha : s.alertedOnce = true)
    (hu : s.lastUrl = some u) (hne : u ≠ inp.href)
    (hm : clockReading inp.my = some mySec) (ho : clockReading inp.opp = some oppSec)
    (hle : JsNum.finLe mySec st.thresholdSeconds = true)
    (hrun : isMyClockRunning inp.my inp.opp = true)
    (h4 : 4000 ≤ inp.now - s.lastAlertAt) :
    firedAlert (tick s inp).effects = true ∧
    (tick s inp).navReset = true ∧
    (tick s inp).state.alertedOnce = true ∧
    (tick s inp).state.lastAlertAt = inp.now := by
  have hstep := urlStep_changed s inp.href u hu hne
  rw [tick_of_readings s inp mySec oppSec hm ho, hstep]
  have hj : isTimeJump (trackMin (resetForNewGame { s with lastUrl := some inp.href }) mySec)
      mySec = false := by
    by_contra hc
    simp only [Bool.not_eq_false] at hc
    obtain ⟨m, hmm, _⟩ := (isTimeJump_iff _ _).mp hc
    simp [resetForNewGame] at hmm
  have hfire := tickBody_fires (resetForNewGame { s with lastUrl := some inp.href }) st true
    (isMyClockRunning inp.my inp.opp) mySec inp.now hs rfl hj (Or.inl hrun)
    (finLe_effective mySec st hle) h4
  exact ⟨hfire.1, rfl, hfire.2.1, hfire.2.2⟩

/-- C8 (witness). The amended statement after an alert at time 100000 on
`urlA`, for a tick on `urlB` at time 104000 with a reading of 25 seconds. -/
theorem navigation_rearms_witness :
    alertedState.settings = some DEFAULT_SETTINGS ∧ alertedState.alertedOnce = true ∧
    alertedState.lastUrl = some urlA ∧ urlA ≠ (sample urlB "0:25" true 104000).href ∧
    clockReading (sample urlB "0:25" true 104000).my = some 25 ∧
    4000 ≤ (sample urlB "0:25" true 104000).now - alertedState.lastAlertAt ∧
    firedAlert (tick alertedState (sample urlB "0:25" true 104000)).effects = true :=
  ⟨rfl, rfl, rfl, by decide, by decide!, by decide,
    (navigation_rearms alertedState DEFAULT_SETTINGS (sample urlB "0:25" true 104000) 25 300 urlA
      rfl rfl rfl (by decide) (by decide!) (by decide!) (by decide!) (by decide!)
      (by decide)).1⟩

end ChessAlert
